import Mathlib

/-!
# Verification of the color-compass palette-extraction core

Shallow embedding of the repository's color pipeline:

* `frontend/js/colorUtils.js` : `rgbToLab`, `labDistance`, `rgbToHex`, `hexToRgb`
* the Lab web worker (`labConverter.js`) : `rgbToLabWorker`
* the worker manager : `rgbToLabSync`
* `frontend/js/medianCut.js` : `ColorBox`, `extractPaletteMedianCut`
* `frontend/js/paletteAnalyzer.js` : `analyzePalette`, `constrainedKmeans`,
  `initializeCentroids`, `mergeCloseClusters`, background/feature detection
* `frontend/js/slic.js` : `floodFill`, `enforceConnectivity`

Modelling conventions:

* JavaScript numbers are modelled as exact real numbers (`ℝ`); the claims
  settled here are all robust to this idealization (they are either structural,
  or concern comparisons with wide margins).
* The JavaScript value `Infinity` (used as a sentinel by `labDistance` and as
  the initial `minDist` of minimization loops) is modelled with `EReal`'s `⊤`.
* A possibly-missing argument (JS `undefined`/`null`) is modelled with
  `Option`.
* Unbounded JS `while` loops are modelled with an explicit fuel argument that
  is always sufficient on the loops' reachable inputs.
* Integer-valued data (SLIC label maps, hex digits) is modelled with `ℤ`/`ℕ`
  and those embeddings are computable, so concrete runs evaluate by `decide`.
-/

open scoped Classical

noncomputable section

/-! ## ColorSpace: colorUtils.js -/

/-- `rgbToLab` from `colorUtils.js`: sRGB (0-255) to CIELAB, D65 reference
white, returning the array `[L*, a*, b*]`. -/
def rgbToLab (r g b : ℝ) : List ℝ :=
  let var_R := r / 255
  let var_G := g / 255
  let var_B := b / 255
  let sRGBtoLinear := fun (c : ℝ) =>
    if c > 0.04045 then ((c + 0.055) / 1.055) ^ (2.4 : ℝ) else c / 12.92
  let var_R := sRGBtoLinear var_R * 100
  let var_G := sRGBtoLinear var_G * 100
  let var_B := sRGBtoLinear var_B * 100
  let X := var_R * 0.4124 + var_G * 0.3576 + var_B * 0.1805
  let Y := var_R * 0.2126 + var_G * 0.7152 + var_B * 0.0722
  let Z := var_R * 0.0193 + var_G * 0.1192 + var_B * 0.9505
  let var_X := X / 95.047
  let var_Y := Y / 100.000
  let var_Z := Z / 108.883
  let f := fun (c : ℝ) =>
    if c > 0.008856 then c ^ ((1 : ℝ) / 3) else (903.3 * c + 16) / 116
  let var_X := f var_X
  let var_Y := f var_Y
  let var_Z := f var_Z
  [116 * var_Y - 16, 500 * (var_X - var_Y), 200 * (var_Y - var_Z)]

/-- `rgbToLabWorker` from the Lab conversion web worker
(`workers/labConverter.js`): same formula as `rgbToLab`, with the sRGB-linear
helper and the CIE f-function lifted to module level. -/
def rgbToLabWorker (r g b : ℝ) : List ℝ :=
  let var_R := r / 255
  let var_G := g / 255
  let var_B := b / 255
  let sRGBtoLinear := fun (c : ℝ) =>
    if c > 0.04045 then ((c + 0.055) / 1.055) ^ (2.4 : ℝ) else c / 12.92
  let var_R := sRGBtoLinear var_R * 100
  let var_G := sRGBtoLinear var_G * 100
  let var_B := sRGBtoLinear var_B * 100
  let X := var_R * 0.4124 + var_G * 0.3576 + var_B * 0.1805
  let Y := var_R * 0.2126 + var_G * 0.7152 + var_B * 0.0722
  let Z := var_R * 0.0193 + var_G * 0.1192 + var_B * 0.9505
  let var_X := X / 95.047
  let var_Y := Y / 100.000
  let var_Z := Z / 108.883
  let f := fun (c : ℝ) =>
    if c > 0.008856 then c ^ ((1 : ℝ) / 3) else (903.3 * c + 16) / 116
  let var_X := f var_X
  let var_Y := f var_Y
  let var_Z := f var_Z
  [116 * var_Y - 16, 500 * (var_X - var_Y), 200 * (var_Y - var_Z)]

/-- `rgbToLabSync` from the worker manager (the synchronous fallback used when
the worker cannot be created); textually the same computation again. -/
def rgbToLabSync (r g b : ℝ) : List ℝ :=
  let var_R := r / 255
  let var_G := g / 255
  let var_B := b / 255
  let sRGBtoLinear := fun (c : ℝ) =>
    if c > 0.04045 then ((c + 0.055) / 1.055) ^ (2.4 : ℝ) else c / 12.92
  let var_R := sRGBtoLinear var_R * 100
  let var_G := sRGBtoLinear var_G * 100
  let var_B := sRGBtoLinear var_B * 100
  let X := var_R * 0.4124 + var_G * 0.3576 + var_B * 0.1805
  let Y := var_R * 0.2126 + var_G * 0.7152 + var_B * 0.0722
  let Z := var_R * 0.0193 + var_G * 0.1192 + var_B * 0.9505
  let var_X := X / 95.047
  let var_Y := Y / 100.000
  let var_Z := Z / 108.883
  let f := fun (c : ℝ) =>
    if c > 0.008856 then c ^ ((1 : ℝ) / 3) else (903.3 * c + 16) / 116
  let var_X := f var_X
  let var_Y := f var_Y
  let var_Z := f var_Z
  [116 * var_Y - 16, 500 * (var_X - var_Y), 200 * (var_Y - var_Z)]

/-- `labDistance` from `colorUtils.js` (Delta-E 1976).  A missing argument is
`none`; the JS sentinel `Infinity` returned on malformed input is `⊤ : EReal`.
Well-formed inputs yield the real Euclidean norm of the first three channel
differences. -/
def labDistance : Option (List ℝ) → Option (List ℝ) → EReal
  | none, _ => ⊤
  | _, none => ⊤
  | some lab1, some lab2 =>
    if lab1.length < 3 ∨ lab2.length < 3 then ⊤
    else
      let deltaL := lab1.getD 0 0 - lab2.getD 0 0
      let deltaA := lab1.getD 1 0 - lab2.getD 1 0
      let deltaB := lab1.getD 2 0 - lab2.getD 2 0
      ((Real.sqrt (deltaL * deltaL + deltaA * deltaA + deltaB * deltaB) : ℝ) : EReal)

/-- The value `labDistance` computes on well-formed (length ≥ 3) Lab arrays,
as a plain real number.  Every call site inside the pipeline passes the
3-element arrays produced by `rgbToLab`, on which `labDistance` agrees with
this function (see `labDistance_eq_labDistance3`). -/
def labDistance3 (lab1 lab2 : List ℝ) : ℝ :=
  let deltaL := lab1.getD 0 0 - lab2.getD 0 0
  let deltaA := lab1.getD 1 0 - lab2.getD 1 0
  let deltaB := lab1.getD 2 0 - lab2.getD 2 0
  Real.sqrt (deltaL * deltaL + deltaA * deltaA + deltaB * deltaB)

theorem labDistance_eq_labDistance3 (lab1 lab2 : List ℝ)
    (h1 : 3 ≤ lab1.length) (h2 : 3 ≤ lab2.length) :
    labDistance (some lab1) (some lab2) = ((labDistance3 lab1 lab2 : ℝ) : EReal) := by
  simp only [labDistance, labDistance3]
  rw [if_neg]
  omega

theorem labDistance3_self (lab : List ℝ) : labDistance3 lab lab = 0 := by
  simp [labDistance3]

theorem labDistance3_nonneg (lab1 lab2 : List ℝ) : 0 ≤ labDistance3 lab1 lab2 :=
  Real.sqrt_nonneg _

theorem labDistance3_comm (lab1 lab2 : List ℝ) :
    labDistance3 lab1 lab2 = labDistance3 lab2 lab1 := by
  simp only [labDistance3]
  ring_nf

/-! ## Hex encoding: colorUtils.js `rgbToHex` / `hexToRgb`

Strings are modelled as `List Char`.  `Math.round` (half-up) is `jsRound`. -/

/-- JS `Math.round`: round half up (`Math.round(x) = ⌊x + 0.5⌋`). -/
def jsRound (q : ℚ) : ℤ := ⌊q + 1 / 2⌋

/-- Lowercase hex digit character for `n < 16`, as produced by JS
`Number.prototype.toString(16)`. -/
def toHexDigit (n : ℕ) : Char :=
  if n < 10 then Char.ofNat (48 + n) else Char.ofNat (87 + n)

/-- `toHex` helper inside `rgbToHex`: clamp the rounded value to `[0,255]`,
render in base 16 and left-pad to two digits. -/
def toHex (c : ℚ) : List Char :=
  let val := (max 0 (min 255 (jsRound c))).toNat
  if val < 16 then ['0', toHexDigit val]
  else [toHexDigit (val / 16), toHexDigit (val % 16)]

/-- JS `String.prototype.toUpperCase` on one ASCII character. -/
def toUpperChar (c : Char) : Char :=
  if 'a' ≤ c ∧ c ≤ 'z' then Char.ofNat (c.toNat - 32) else c

/-- `rgbToHex` from `colorUtils.js`: `#RRGGBB`, uppercased.  A non-array or
too-short argument yields the error color string `#FF00FF`. -/
def rgbToHex (rgb : List ℚ) : List Char :=
  if rgb.length < 3 then "#FF00FF".toList
  else
    (('#' :: (toHex (rgb.getD 0 0) ++ toHex (rgb.getD 1 0) ++ toHex (rgb.getD 2 0))).map
      toUpperChar)

/-- The character class `[a-f\d]` with the `i` flag of the regexes in
`hexToRgb`. -/
def isHexDig (c : Char) : Bool :=
  ('0' ≤ c && c ≤ '9') || ('a' ≤ c && c ≤ 'f') || ('A' ≤ c && c ≤ 'F')

/-- Value of one hex digit character (`parseInt(-, 16)` on a single digit). -/
def hexVal (c : Char) : ℕ :=
  if c ≤ '9' then c.toNat - 48 else if c ≤ 'F' then c.toNat - 55 else c.toNat - 87

/-- The shorthand-expansion `replace` in `hexToRgb`: a string matching
`^#?([a-f\d])([a-f\d])([a-f\d])$` is replaced by the six doubled digits
(dropping the optional `#`); anything else is left unchanged. -/
def expandShorthand (s : List Char) : List Char :=
  match s with
  | [a, b, c] => if isHexDig a && isHexDig b && isHexDig c then [a, a, b, b, c, c] else s
  | ['#', a, b, c] => if isHexDig a && isHexDig b && isHexDig c then [a, a, b, b, c, c] else s
  | _ => s

/-- `hexToRgb` from `colorUtils.js`: expand shorthand, match
`^#?([a-f\d]{2})([a-f\d]{2})([a-f\d]{2})$` and parse the three pairs;
`none` models the JS `null` returned on no match. -/
def hexToRgb (s : List Char) : Option (List ℕ) :=
  let s := expandShorthand s
  let body := match s with
    | '#' :: rest => rest
    | rest => rest
  match body with
  | [a, b, c, d, e, f] =>
    if isHexDig a && isHexDig b && isHexDig c && isHexDig d && isHexDig e && isHexDig f then
      some [hexVal a * 16 + hexVal b, hexVal c * 16 + hexVal d, hexVal e * 16 + hexVal f]
    else none
  | _ => none

theorem jsRound_natCast (v : ℕ) : jsRound (v : ℚ) = v := by
  unfold jsRound
  rw [Int.floor_eq_iff]
  constructor
  · push_cast; linarith
  · push_cast; linarith

theorem hexDigit_roundtrip :
    ∀ d : ℕ, d < 16 →
      isHexDig (toUpperChar (toHexDigit d)) = true ∧ hexVal (toUpperChar (toHexDigit d)) = d := by
  decide

theorem toHex_shape (v : ℕ) (hv : v ≤ 255) :
    ∃ c1 c2 : Char, toHex (v : ℚ) = [c1, c2] ∧
      isHexDig (toUpperChar c1) = true ∧ isHexDig (toUpperChar c2) = true ∧
      hexVal (toUpperChar c1) * 16 + hexVal (toUpperChar c2) = v := by
  have hround : jsRound (v : ℚ) = v := jsRound_natCast v
  have hclamp : (max 0 (min 255 (jsRound (v : ℚ)))).toNat = v := by
    rw [hround]
    have : min 255 (v : ℤ) = (v : ℤ) := by
      rw [min_eq_right]; exact_mod_cast hv
    rw [this]
    have : max 0 (v : ℤ) = (v : ℤ) := by
      rw [max_eq_right]; positivity
    rw [this, Int.toNat_natCast]
  unfold toHex
  rw [hclamp]
  by_cases h16 : v < 16
  · refine ⟨'0', toHexDigit v, ?_, ?_, ?_, ?_⟩
    · simp [h16]
    · decide
    · exact (hexDigit_roundtrip v h16).1
    · have h0 : hexVal (toUpperChar '0') = 0 := by decide
      rw [h0, (hexDigit_roundtrip v h16).2]
      ring
  · refine ⟨toHexDigit (v / 16), toHexDigit (v % 16), ?_, ?_, ?_, ?_⟩
    · simp [h16]
    · exact (hexDigit_roundtrip (v / 16) (by omega)).1
    · exact (hexDigit_roundtrip (v % 16) (by omega)).1
    · rw [(hexDigit_roundtrip (v / 16) (by omega)).2,
        (hexDigit_roundtrip (v % 16) (by omega)).2]
      omega

theorem toUpperChar_hash : toUpperChar '#' = '#' := by decide

theorem hexToRgb_rgbToHex (r g b : ℕ) (hr : r ≤ 255) (hg : g ≤ 255) (hb : b ≤ 255) :
    hexToRgb (rgbToHex [(r : ℚ), (g : ℚ), (b : ℚ)]) = some [r, g, b] := by
  obtain ⟨r1, r2, hrEq, hr1, hr2, hrVal⟩ := toHex_shape r hr
  obtain ⟨g1, g2, hgEq, hg1, hg2, hgVal⟩ := toHex_shape g hg
  obtain ⟨b1, b2, hbEq, hb1, hb2, hbVal⟩ := toHex_shape b hb
  have hform : rgbToHex [(r : ℚ), (g : ℚ), (b : ℚ)] =
      ['#', toUpperChar r1, toUpperChar r2, toUpperChar g1, toUpperChar g2,
        toUpperChar b1, toUpperChar b2] := by
    unfold rgbToHex
    rw [if_neg (by simp)]
    simp only [List.getD_cons_zero, List.getD_cons_succ]
    rw [hrEq, hgEq, hbEq]
    simp [toUpperChar_hash]
  rw [hform]
  unfold hexToRgb
  simp only [expandShorthand]
  rw [hr1, hr2, hg1, hg2, hb1, hb2, hrVal, hgVal, hbVal]
  simp

/-- C10: for every integer triple `(r, g, b)` with each component in
`[0, 255]`, `hexToRgb (rgbToHex [r, g, b])` returns exactly `[r, g, b]`:
the hex encoding at the public interface is a lossless round-trip for
in-range integer colors. -/
theorem claim_C10_hex_roundtrip (r g b : ℕ) (hr : r ≤ 255) (hg : g ≤ 255) (hb : b ≤ 255) :
    hexToRgb (rgbToHex [(r : ℚ), (g : ℚ), (b : ℚ)]) = some [r, g, b] :=
  hexToRgb_rgbToHex r g b hr hg hb

/-- Witness for C10 at the concrete color (255, 0, 17). -/
theorem claim_C10_hex_roundtrip_witness :
    255 ≤ 255 ∧ 0 ≤ 255 ∧ 17 ≤ 255 ∧
      hexToRgb (rgbToHex [(255 : ℚ), (0 : ℚ), (17 : ℚ)]) = some [255, 0, 17] :=
  ⟨by decide, by decide, by decide,
    claim_C10_hex_roundtrip 255 0 17 (by decide) (by decide) (by decide)⟩

/-- C7: on well-formed inputs (at least 3 numeric components) `labDistance`
is the Euclidean norm of the channel differences, hence non-negative,
symmetric, and zero on equal inputs; on every malformed input (missing
argument or fewer than 3 components) it returns the `Infinity` sentinel
(modelled by `⊤ : EReal`) instead of throwing. -/
theorem claim_C7_labDistance_spec :
    (∀ lab1 lab2 : List ℝ, 3 ≤ lab1.length → 3 ≤ lab2.length →
      labDistance (some lab1) (some lab2) =
        ((Real.sqrt ((lab1.getD 0 0 - lab2.getD 0 0) ^ 2 +
            (lab1.getD 1 0 - lab2.getD 1 0) ^ 2 +
            (lab1.getD 2 0 - lab2.getD 2 0) ^ 2) : ℝ) : EReal) ∧
      0 ≤ labDistance (some lab1) (some lab2) ∧
      labDistance (some lab1) (some lab2) = labDistance (some lab2) (some lab1) ∧
      (lab1 = lab2 → labDistance (some lab1) (some lab2) = 0)) ∧
    (∀ o : Option (List ℝ), labDistance none o = ⊤ ∧ labDistance o none = ⊤) ∧
    (∀ lab1 lab2 : List ℝ, lab1.length < 3 → labDistance (some lab1) (some lab2) = ⊤) ∧
    (∀ lab1 lab2 : List ℝ, lab2.length < 3 → labDistance (some lab1) (some lab2) = ⊤) := by
  refine ⟨fun lab1 lab2 h1 h2 => ⟨?_, ?_, ?_, ?_⟩, ?_, ?_, ?_⟩
  · rw [labDistance_eq_labDistance3 lab1 lab2 h1 h2]
    simp only [labDistance3]
    ring_nf
  · rw [labDistance_eq_labDistance3 lab1 lab2 h1 h2]
    exact_mod_cast labDistance3_nonneg lab1 lab2
  · rw [labDistance_eq_labDistance3 lab1 lab2 h1 h2,
      labDistance_eq_labDistance3 lab2 lab1 h2 h1, labDistance3_comm]
  · intro h
    subst h
    rw [labDistance_eq_labDistance3 lab1 lab1 h1 h1, labDistance3_self]
    rfl
  · intro o
    constructor
    · cases o <;> rfl
    · cases o <;> rfl
  · intro lab1 lab2 h
    simp only [labDistance]
    rw [if_pos (Or.inl h)]
  · intro lab1 lab2 h
    simp only [labDistance]
    rw [if_pos (Or.inr h)]

/-- Witness for C7 at concrete inputs: the distance of `[0,0,0]` to itself is
`0`, and the distance of the malformed 2-element array `[1,2]` to `[0,0,0]`
is the `Infinity` sentinel. -/
theorem claim_C7_labDistance_spec_witness :
    3 ≤ [(0 : ℝ), 0, 0].length ∧
      labDistance (some [(0 : ℝ), 0, 0]) (some [(0 : ℝ), 0, 0]) = 0 ∧
      labDistance (some [(1 : ℝ), 2]) (some [(0 : ℝ), 0, 0]) = ⊤ :=
  ⟨by decide,
    (claim_C7_labDistance_spec.1 [(0 : ℝ), 0, 0] [(0 : ℝ), 0, 0] (by decide) (by decide)).2.2.2
      rfl,
    claim_C7_labDistance_spec.2.2.1 [(1 : ℝ), 2] [(0 : ℝ), 0, 0] (by decide)⟩

/-- C8: the synchronous conversion `rgbToLab`, the worker-thread conversion
`rgbToLabWorker`, and the synchronous fallback `rgbToLabSync` compute
identical Lab triples on every RGB triple with components in `[0, 255]`
(they are in fact the same function on all inputs). -/
theorem claim_C8_lab_paths_agree (r g b : ℝ)
    (hr : 0 ≤ r ∧ r ≤ 255) (hg : 0 ≤ g ∧ g ≤ 255) (hb : 0 ≤ b ∧ b ≤ 255) :
    rgbToLab r g b = rgbToLabWorker r g b ∧ rgbToLabWorker r g b = rgbToLabSync r g b :=
  ⟨rfl, rfl⟩

/-- Witness for C8 at the concrete triple (0, 12, 255). -/
theorem claim_C8_lab_paths_agree_witness :
    ((0 : ℝ) ≤ 0 ∧ (0 : ℝ) ≤ 255) ∧ ((0 : ℝ) ≤ 12 ∧ (12 : ℝ) ≤ 255) ∧
      ((0 : ℝ) ≤ 255 ∧ (255 : ℝ) ≤ 255) ∧
      rgbToLab 0 12 255 = rgbToLabWorker 0 12 255 ∧
      rgbToLabWorker 0 12 255 = rgbToLabSync 0 12 255 :=
  ⟨⟨by norm_num, by norm_num⟩, ⟨by norm_num, by norm_num⟩, ⟨by norm_num, by norm_num⟩,
    (claim_C8_lab_paths_agree 0 12 255 ⟨by norm_num, by norm_num⟩ ⟨by norm_num, by norm_num⟩
      ⟨by norm_num, by norm_num⟩).1,
    (claim_C8_lab_paths_agree 0 12 255 ⟨by norm_num, by norm_num⟩ ⟨by norm_num, by norm_num⟩
      ⟨by norm_num, by norm_num⟩).2⟩

/-! ## Generic stable sort

JS `Array.prototype.sort` with a consistent comparator is required (ES2019+)
to be stable; any stable sorting algorithm with the same comparator produces
the same list.  We model it with a stable insertion sort: `ok x y` means
"x may be placed before y" (for a comparator `cmp` this is `cmp x y ≤ 0`). -/

/-- Insert `x` before the first element it may precede (stable: `x` is placed
after earlier elements that tie with it only if `ok x y` fails, and before
later ties because `ok` holds on ties). -/
def insStable (ok : α → α → Prop) (x : α) : List α → List α
  | [] => [x]
  | y :: ys => if ok x y then x :: y :: ys else y :: insStable ok x ys

/-- Stable insertion sort with the "may precede" relation `ok`. -/
def sortStable (ok : α → α → Prop) : List α → List α
  | [] => []
  | x :: xs => insStable ok x (sortStable ok xs)

theorem insStable_perm (ok : α → α → Prop) (x : α) (l : List α) :
    (insStable ok x l).Perm (x :: l) := by
  induction l with
  | nil => simp [insStable]
  | cons y ys ih =>
    simp only [insStable]
    split
    · exact List.Perm.refl _
    · exact (List.Perm.cons y ih).trans (List.Perm.swap x y ys)

theorem sortStable_perm (ok : α → α → Prop) (l : List α) :
    (sortStable ok l).Perm l := by
  induction l with
  | nil => exact List.Perm.refl _
  | cons x xs ih =>
    exact (insStable_perm ok x (sortStable ok xs)).trans (List.Perm.cons x ih)

theorem insStable_pairwise (ok : α → α → Prop)
    (htot : ∀ a b, ok a b ∨ ok b a) (htrans : ∀ a b c, ok a b → ok b c → ok a c)
    (x : α) (l : List α) (h : l.Pairwise ok) :
    (insStable ok x l).Pairwise ok := by
  induction l with
  | nil => simp [insStable]
  | cons y ys ih =>
    simp only [insStable]
    split
    · rename_i hxy
      refine List.Pairwise.cons ?_ h
      intro z hz
      rcases List.mem_cons.mp hz with rfl | hz
      · exact hxy
      · exact htrans x y z hxy ((List.pairwise_cons.mp h).1 z hz)
    · rename_i hxy
      have hyx : ok y x := (htot x y).resolve_left hxy
      obtain ⟨hy, hys⟩ := List.pairwise_cons.mp h
      refine List.Pairwise.cons ?_ (ih hys)
      intro z hz
      have hz' := (insStable_perm ok x ys).mem_iff.mp hz
      rcases List.mem_cons.mp hz' with rfl | hz'
      · exact hyx
      · exact hy z hz'

theorem sortStable_pairwise (ok : α → α → Prop)
    (htot : ∀ a b, ok a b ∨ ok b a) (htrans : ∀ a b c, ok a b → ok b c → ok a c)
    (l : List α) : (sortStable ok l).Pairwise ok := by
  induction l with
  | nil => exact List.Pairwise.nil
  | cons x xs ih => exact insStable_pairwise ok htot htrans x (sortStable ok xs) ih

/-- Head of the descending stable sort by a key: it is the first element of
the original list attaining the maximal key. -/
theorem sortStable_head_firstmax (key : α → ℕ) (l : List α) (x : α) (t : List α)
    (h : sortStable (fun a b => key b ≤ key a) l = x :: t) :
    ∃ pre post, l = pre ++ x :: post ∧ (∀ y ∈ pre, key y < key x) ∧
      ∀ y ∈ l, key y ≤ key x := by
  induction l generalizing x t with
  | nil => simp [sortStable] at h
  | cons a l' ih =>
    simp only [sortStable] at h
    rcases hs : sortStable (fun a b => key b ≤ key a) l' with _ | ⟨h', t'⟩
    · have hp := sortStable_perm (fun a b => key b ≤ key a) l'
      rw [hs] at hp
      have hl' : l' = [] := hp.symm.eq_nil
      subst hl'
      simp only [hs, insStable] at h
      obtain ⟨hx, ht⟩ := List.cons.inj h
      subst hx
      exact ⟨[], [], rfl, by simp, by simp⟩
    · rw [hs] at h
      simp only [insStable] at h
      obtain ⟨pre', post', hdec, hpre', hall'⟩ := ih h' t' hs
      by_cases hcmp : key h' ≤ key a
      · rw [if_pos hcmp] at h
        obtain ⟨hx, ht⟩ := List.cons.inj h
        subst hx
        refine ⟨[], l', rfl, by simp, ?_⟩
        intro y hy
        rcases List.mem_cons.mp hy with rfl | hy
        · exact le_refl _
        · exact le_trans (hall' y hy) hcmp
      · rw [if_neg hcmp] at h
        obtain ⟨hx, ht⟩ := List.cons.inj h
        subst hx
        refine ⟨a :: pre', post', by rw [hdec]; rfl, ?_, ?_⟩
        · intro y hy
          rcases List.mem_cons.mp hy with rfl | hy
          · omega
          · exact hpre' y hy
        · intro y hy
          rcases List.mem_cons.mp hy with rfl | hy
          · omega
          · exact hall' y hy

/-! ## MedianCutQuantizer: medianCut.js -/

/-- An RGB triple (a JS `{r, g, b}` object with number fields). -/
structure Rgb where
  r : ℝ
  g : ℝ
  b : ℝ

instance : Inhabited Rgb := ⟨⟨0, 0, 0⟩⟩

/-- One RGBA pixel of the flat `Uint8ClampedArray` buffer (the alpha channel
is read but ignored by the quantizer). -/
structure Pixel where
  r : ℝ
  g : ℝ
  b : ℝ
  a : ℝ

/-- One element of `allColors` in `extractPaletteMedianCut`: original RGB plus
the derived Lab array. -/
structure MCColor where
  r : ℝ
  g : ℝ
  b : ℝ
  lab : List ℝ

instance : Inhabited MCColor := ⟨⟨0, 0, 0, [0, 0, 0]⟩⟩

/-- The six channels a `ColorBox` tracks: R, G, B and the three Lab channels
(`b_lab` is the Lab b* channel, named as in the source). -/
inductive Channel
  | r
  | g
  | b
  | l
  | a
  | b_lab
deriving DecidableEq

/-- `ColorBox` of `medianCut.js`: member colors plus the per-channel min/max
computed by the constructor (the `range` object is derived from these). -/
structure Box where
  colors : List MCColor
  minR : ℝ
  maxR : ℝ
  minG : ℝ
  maxG : ℝ
  minB : ℝ
  maxB : ℝ
  minL : ℝ
  maxL : ℝ
  minA : ℝ
  maxA : ℝ
  minBl : ℝ
  maxBl : ℝ

/-- One min/max update of the `ColorBox` constructor loop (one member). -/
def boxUpd (box : Box) (c : MCColor) : Box :=
  { box with
    minR := min box.minR c.r, maxR := max box.maxR c.r
    minG := min box.minG c.g, maxG := max box.maxG c.g
    minB := min box.minB c.b, maxB := max box.maxB c.b
    minL := min box.minL (c.lab.getD 0 0), maxL := max box.maxL (c.lab.getD 0 0)
    minA := min box.minA (c.lab.getD 1 0), maxA := max box.maxA (c.lab.getD 1 0)
    minBl := min box.minBl (c.lab.getD 2 0), maxBl := max box.maxBl (c.lab.getD 2 0) }

/-- The `ColorBox` constructor: fold the min/max updates over the members,
starting from the source's initial values
(`min = {r:255, g:255, b:255, l:100, a:128, b_lab:128}`,
`max = {r:0, g:0, b:0, l:0, a:-128, b_lab:-128}`). -/
def mkBox (colors : List MCColor) : Box :=
  colors.foldl boxUpd
    { colors := colors
      minR := 255, maxR := 0, minG := 255, maxG := 0, minB := 255, maxB := 0
      minL := 100, maxL := 0, minA := 128, maxA := -128, minBl := 128, maxBl := -128 }

/-- Value of a color in a given channel (used by the sort comparators). -/
def chVal (ch : Channel) (c : MCColor) : ℝ :=
  match ch with
  | .r => c.r
  | .g => c.g
  | .b => c.b
  | .l => c.lab.getD 0 0
  | .a => c.lab.getD 1 0
  | .b_lab => c.lab.getD 2 0

/-- The `range` of a box in a given channel (`this.range` in the source). -/
def chRange (box : Box) (ch : Channel) : ℝ :=
  match ch with
  | .r => box.maxR - box.minR
  | .g => box.maxG - box.minG
  | .b => box.maxB - box.minB
  | .l => box.maxL - box.minL
  | .a => box.maxA - box.minA
  | .b_lab => box.maxBl - box.minBl

/-- One step of `getWidestChannel`'s sequential strict-comparison chain:
replace the current (channel, range) pair iff the candidate's range is
strictly greater. -/
def widerUpd (box : Box) (p : Channel × ℝ) (ch : Channel) : Channel × ℝ :=
  if chRange box ch > p.2 then (ch, chRange box ch) else p

/-- `getWidestChannel` of `ColorBox`: start with `r` and compare the g, b,
L, a, b_lab ranges in order, each replacing only on strict increase. -/
def getWidestChannel (box : Box) : Channel :=
  (widerUpd box (widerUpd box (widerUpd box (widerUpd box (widerUpd box
    (Channel.r, chRange box .r) .g) .b) .l) .a) .b_lab).1

theorem widerUpd_snd (box : Box) (p : Channel × ℝ) (ch : Channel)
    (h : p.2 = chRange box p.1) :
    (widerUpd box p ch).2 = chRange box (widerUpd box p ch).1 := by
  unfold widerUpd
  split <;> simp [h]

theorem widerUpd_mono (box : Box) (p : Channel × ℝ) (ch : Channel) (x : ℝ)
    (h : x ≤ p.2) : x ≤ (widerUpd box p ch).2 := by
  unfold widerUpd
  split <;> [linarith; exact h]

theorem widerUpd_new (box : Box) (p : Channel × ℝ) (ch : Channel) :
    chRange box ch ≤ (widerUpd box p ch).2 := by
  unfold widerUpd
  split <;> [simp; linarith [show ¬chRange box ch > p.2 by assumption]]

/-- The channel picked by `getWidestChannel` has the (weakly) largest range
among all six channels. -/
theorem getWidestChannel_max (box : Box) (ch : Channel) :
    chRange box ch ≤ chRange box (getWidestChannel box) := by
  have h0 : (Channel.r, chRange box .r).2 = chRange box (Channel.r, chRange box .r).1 := rfl
  have h1 := widerUpd_snd box _ Channel.g h0
  have h2 := widerUpd_snd box _ Channel.b h1
  have h3 := widerUpd_snd box _ Channel.l h2
  have h4 := widerUpd_snd box _ Channel.a h3
  have h5 := widerUpd_snd box _ Channel.b_lab h4
  unfold getWidestChannel
  rw [← h5]
  cases ch
  · exact widerUpd_mono box _ _ _ (widerUpd_mono box _ _ _ (widerUpd_mono box _ _ _
      (widerUpd_mono box _ _ _ (widerUpd_mono box _ _ _ (le_refl _)))))
  · exact widerUpd_mono box _ _ _ (widerUpd_mono box _ _ _ (widerUpd_mono box _ _ _
      (widerUpd_mono box _ _ _ (widerUpd_new box _ _))))
  · exact widerUpd_mono box _ _ _ (widerUpd_mono box _ _ _ (widerUpd_mono box _ _ _
      (widerUpd_new box _ _)))
  · exact widerUpd_mono box _ _ _ (widerUpd_mono box _ _ _ (widerUpd_new box _ _))
  · exact widerUpd_mono box _ _ _ (widerUpd_new box _ _)
  · exact widerUpd_new box _ _

/-- JS `Math.round` on a real number, staying in `ℝ` (JS numbers). -/
def jsRoundR (x : ℝ) : ℝ := ((⌊x + 1 / 2⌋ : ℤ) : ℝ)

/-- The box-count sort in the split loop:
`colorBoxes.sort((a, b) => b.colors.length - a.colors.length)` — stable
descending by member count. -/
def sortBoxesByCountDesc (boxes : List Box) : List Box :=
  sortStable (fun a b => b.colors.length ≤ a.colors.length) boxes

/-- The member sort inside the split loop: ascending by the value of the
chosen channel (Lab channels are read from the `lab` array). -/
def sortColorsByChannel (ch : Channel) (colors : List MCColor) : List MCColor :=
  sortStable (fun x y => chVal ch x ≤ chVal ch y) colors

/-- Selection step of the split loop: sort descending by member count and
take the first box (`boxToSplit = colorBoxes[0]`), returning it together
with the remaining boxes in sorted order. -/
def mcChoose (boxes : List Box) : Option (Box × List Box) :=
  match sortBoxesByCountDesc boxes with
  | [] => none
  | b :: rest => some (b, rest)

/-- Split a box: sort its members by its widest channel and cut at
`Math.floor(length / 2)`, building the two child `ColorBox`es. -/
def mcSplit (box : Box) : Box × Box :=
  let ch := getWidestChannel box
  let sorted := sortColorsByChannel ch box.colors
  let medianIndex := sorted.length / 2
  (mkBox (sorted.take medianIndex), mkBox (sorted.drop medianIndex))

/-- The `while (colorBoxes.length < maxColors)` split loop of
`extractPaletteMedianCut`.  Each iteration sorts the boxes by size, stops if
the largest box has at most one member, otherwise splits it at the median and
replaces it (`splice(0, 1, box1, box2)`) by its two children; the source also
breaks (after splicing) if a child came out empty.  The fuel is
`maxColors.toNat`, which dominates the number of iterations since every
iteration grows the box count by one. -/
def mcLoop (maxColors : ℤ) : ℕ → List Box → List Box
  | 0, boxes => boxes
  | fuel + 1, boxes =>
    if (boxes.length : ℤ) < maxColors then
      match mcChoose boxes with
      | none => boxes
      | some (b, rest) =>
        if b.colors.length ≤ 1 then b :: rest
        else
          let box1 := (mcSplit b).1
          let box2 := (mcSplit b).2
          if box1.colors.length = 0 ∨ box2.colors.length = 0 then box1 :: box2 :: rest
          else mcLoop maxColors fuel (box1 :: box2 :: rest)
    else boxes

/-- One raw palette entry `{r, g, b, count}` (output of the quantizer and
input of `analyzePalette`). -/
structure RawEntry where
  r : ℝ
  g : ℝ
  b : ℝ
  count : ℝ

/-- `getAverageColor` of `ColorBox`: `null` (`none`) on an empty box, else
the rounded arithmetic mean of the member RGB values. -/
def getAverageColor (box : Box) : Option Rgb :=
  if box.colors.length = 0 then none
  else
    some
      ⟨jsRoundR ((box.colors.map (·.r)).sum / box.colors.length),
        jsRoundR ((box.colors.map (·.g)).sum / box.colors.length),
        jsRoundR ((box.colors.map (·.b)).sum / box.colors.length)⟩

/-- `extractPaletteMedianCut` from `medianCut.js`: reject an empty buffer or
non-positive target with an empty palette; otherwise run the split loop from
the single all-colors box and emit one `{r, g, b, count}` per surviving box,
filtering out `null` averages. -/
def extractPaletteMedianCut (pixelData : List Pixel) (maxColors : ℤ) : List RawEntry :=
  if pixelData = [] ∨ maxColors ≤ 0 then []
  else
    let allColors := pixelData.map fun p => MCColor.mk p.r p.g p.b (rgbToLab p.r p.g p.b)
    let final := mcLoop maxColors maxColors.toNat [mkBox allColors]
    final.filterMap fun box =>
      (getAverageColor box).map fun avg =>
        RawEntry.mk avg.r avg.g avg.b (box.colors.length : ℝ)

theorem foldl_boxUpd_colors (l : List MCColor) (box : Box) :
    (l.foldl boxUpd box).colors = box.colors := by
  induction l generalizing box with
  | nil => rfl
  | cons c cs ih => rw [List.foldl_cons, ih]; rfl

theorem mkBox_colors (cs : List MCColor) : (mkBox cs).colors = cs := by
  unfold mkBox
  rw [foldl_boxUpd_colors]

theorem mcChoose_eq_sort (boxes : List Box) (b : Box) (rest : List Box)
    (h : mcChoose boxes = some (b, rest)) :
    sortBoxesByCountDesc boxes = b :: rest := by
  unfold mcChoose at h
  rcases hs : sortBoxesByCountDesc boxes with _ | ⟨b', rest'⟩
  · rw [hs] at h; exact absurd h (by simp)
  · rw [hs] at h
    simp only [Option.some.injEq, Prod.mk.injEq] at h
    rw [h.1, h.2]

theorem mcChoose_perm (boxes : List Box) (b : Box) (rest : List Box)
    (h : mcChoose boxes = some (b, rest)) : (b :: rest).Perm boxes := by
  rw [← mcChoose_eq_sort boxes b rest h]
  exact sortStable_perm _ boxes

theorem sortColorsByChannel_length (ch : Channel) (cs : List MCColor) :
    (sortColorsByChannel ch cs).length = cs.length :=
  (sortStable_perm _ cs).length_eq

theorem mcSplit_fst_colors (b : Box) :
    (mcSplit b).1.colors =
      (sortColorsByChannel (getWidestChannel b) b.colors).take (b.colors.length / 2) := by
  simp [mcSplit, mkBox_colors, sortColorsByChannel_length]

theorem mcSplit_snd_colors (b : Box) :
    (mcSplit b).2.colors =
      (sortColorsByChannel (getWidestChannel b) b.colors).drop (b.colors.length / 2) := by
  simp [mcSplit, mkBox_colors, sortColorsByChannel_length]

theorem mcSplit_lengths (b : Box) :
    (mcSplit b).1.colors.length = min (b.colors.length / 2) b.colors.length ∧
      (mcSplit b).2.colors.length = b.colors.length - b.colors.length / 2 := by
  rw [mcSplit_fst_colors, mcSplit_snd_colors]
  constructor
  · rw [List.length_take, sortColorsByChannel_length]
  · rw [List.length_drop, sortColorsByChannel_length]

/-- C2: one iteration of the median-cut splitting loop.  Whenever the loop
selects a box (`mcChoose`), that box is the first box of the current list
attaining the maximal member count (stable descending sort + index 0); if it
has at most one member and the box count is still below the target, the loop
stops and returns the current (sorted) boxes; otherwise the box's members are
sorted by its single widest channel (max over R, G, B and the three Lab
channel ranges), the box is split at index `floor(count / 2)` into two
sub-boxes, and the loop continues with the two children in place of the
parent. -/
theorem claim_C2_median_cut_step (boxes : List Box) (b : Box) (rest : List Box)
    (hchoose : mcChoose boxes = some (b, rest)) :
    (∃ pre post, boxes = pre ++ b :: post ∧
        (∀ y ∈ pre, y.colors.length < b.colors.length) ∧
        ∀ y ∈ boxes, y.colors.length ≤ b.colors.length)
    ∧ (b :: rest).Perm boxes
    ∧ (∀ (maxColors : ℤ) (fuel : ℕ), (boxes.length : ℤ) < maxColors →
        b.colors.length ≤ 1 → mcLoop maxColors (fuel + 1) boxes = b :: rest)
    ∧ (∀ ch, chRange b ch ≤ chRange b (getWidestChannel b))
    ∧ (2 ≤ b.colors.length →
        (sortColorsByChannel (getWidestChannel b) b.colors).Perm b.colors
        ∧ (sortColorsByChannel (getWidestChannel b) b.colors).Pairwise
            (fun x y => chVal (getWidestChannel b) x ≤ chVal (getWidestChannel b) y)
        ∧ (mcSplit b).1.colors =
            (sortColorsByChannel (getWidestChannel b) b.colors).take (b.colors.length / 2)
        ∧ (mcSplit b).2.colors =
            (sortColorsByChannel (getWidestChannel b) b.colors).drop (b.colors.length / 2)
        ∧ ∀ (maxColors : ℤ) (fuel : ℕ), (boxes.length : ℤ) < maxColors →
            mcLoop maxColors (fuel + 1) boxes =
              mcLoop maxColors fuel ((mcSplit b).1 :: (mcSplit b).2 :: rest)) := by
  have hsort := mcChoose_eq_sort boxes b rest hchoose
  refine ⟨?_, mcChoose_perm boxes b rest hchoose, ?_, getWidestChannel_max b, ?_⟩
  · exact sortStable_head_firstmax (fun bx : Box => bx.colors.length) boxes b rest hsort
  · intro maxColors fuel hlt hle
    simp only [mcLoop]
    rw [if_pos hlt, hchoose]
    simp [hle]
  · intro h2
    refine ⟨sortStable_perm _ b.colors,
      sortStable_pairwise
        (fun x y => chVal (getWidestChannel b) x ≤ chVal (getWidestChannel b) y)
        (fun x y => le_total _ _) (fun x y z hxy hyz => le_trans hxy hyz) b.colors,
      mcSplit_fst_colors b, mcSplit_snd_colors b, ?_⟩
    intro maxColors fuel hlt
    have hlens := mcSplit_lengths b
    have h1 : (mcSplit b).1.colors.length ≠ 0 := by omega
    have h2' : (mcSplit b).2.colors.length ≠ 0 := by omega
    simp only [mcLoop]
    rw [if_pos hlt, hchoose]
    simp only []
    rw [if_neg (by omega : ¬ b.colors.length ≤ 1), if_neg (by
      push_neg
      exact ⟨h1, h2'⟩)]

/-- Witness for C2: the step applied to the concrete two-box list where the
second box is strictly larger; `mcChoose` selects the larger box. -/
theorem claim_C2_median_cut_step_witness :
    mcChoose [mkBox [], mkBox [default, default]] =
        some (mkBox [default, default], [mkBox []]) ∧
      ((∃ pre post, [mkBox [], mkBox [default, default]] =
          pre ++ mkBox [default, default] :: post ∧
          (∀ y ∈ pre, y.colors.length < (mkBox [default, default]).colors.length) ∧
          ∀ y ∈ [mkBox [], mkBox [default, default]],
            y.colors.length ≤ (mkBox [default, default]).colors.length)
        ∧ ((mkBox [default, default]) :: [mkBox []]).Perm
            [mkBox [], mkBox [default, default]]
        ∧ (∀ (maxColors : ℤ) (fuel : ℕ),
            (([mkBox [], mkBox [default, default]].length : ℤ)) < maxColors →
            (mkBox [default, default]).colors.length ≤ 1 →
            mcLoop maxColors (fuel + 1) [mkBox [], mkBox [default, default]] =
              (mkBox [default, default]) :: [mkBox []])
        ∧ (∀ ch, chRange (mkBox [default, default]) ch ≤
            chRange (mkBox [default, default]) (getWidestChannel (mkBox [default, default])))
        ∧ (2 ≤ (mkBox [default, default]).colors.length →
            (sortColorsByChannel (getWidestChannel (mkBox [default, default]))
                (mkBox [default, default]).colors).Perm (mkBox [default, default]).colors
            ∧ (sortColorsByChannel (getWidestChannel (mkBox [default, default]))
                (mkBox [default, default]).colors).Pairwise
                (fun x y => chVal (getWidestChannel (mkBox [default, default])) x ≤
                  chVal (getWidestChannel (mkBox [default, default])) y)
            ∧ (mcSplit (mkBox [default, default])).1.colors =
                (sortColorsByChannel (getWidestChannel (mkBox [default, default]))
                  (mkBox [default, default]).colors).take
                  ((mkBox [default, default]).colors.length / 2)
            ∧ (mcSplit (mkBox [default, default])).2.colors =
                (sortColorsByChannel (getWidestChannel (mkBox [default, default]))
                  (mkBox [default, default]).colors).drop
                  ((mkBox [default, default]).colors.length / 2)
            ∧ ∀ (maxColors : ℤ) (fuel : ℕ),
                (([mkBox [], mkBox [default, default]].length : ℤ)) < maxColors →
                mcLoop maxColors (fuel + 1) [mkBox [], mkBox [default, default]] =
                  mcLoop maxColors fuel
                    ((mcSplit (mkBox [default, default])).1 ::
                      (mcSplit (mkBox [default, default])).2 :: [mkBox []]))) := by
  have hchoose : mcChoose [mkBox [], mkBox [default, default]] =
      some (mkBox [default, default], [mkBox []]) := by
    unfold mcChoose sortBoxesByCountDesc
    simp [sortStable, insStable, mkBox_colors]
  exact ⟨hchoose, claim_C2_median_cut_step _ _ _ hchoose⟩

/-- Loop invariant for C3: the splitting loop never creates an empty box. -/
theorem mcLoop_all_nonempty (maxColors : ℤ) (fuel : ℕ) :
    ∀ boxes : List Box, (∀ bx ∈ boxes, bx.colors ≠ []) →
      ∀ bx ∈ mcLoop maxColors fuel boxes, bx.colors ≠ [] := by
  induction fuel with
  | zero =>
    intro boxes h
    simpa [mcLoop] using h
  | succ fuel ih =>
    intro boxes h
    by_cases hlt : (boxes.length : ℤ) < maxColors
    · rcases hch : mcChoose boxes with _ | ⟨b, rest⟩
      · rw [show mcLoop maxColors (fuel + 1) boxes = boxes by
          simp only [mcLoop]; rw [if_pos hlt, hch]]
        exact h
      · have hsub : ∀ bx ∈ b :: rest, bx ∈ boxes := fun bx hbx =>
          (mcChoose_perm boxes b rest hch).subset hbx
        by_cases hle : b.colors.length ≤ 1
        · rw [show mcLoop maxColors (fuel + 1) boxes = b :: rest by
            simp only [mcLoop]; rw [if_pos hlt, hch]; simp [hle]]
          intro bx hbx
          exact h bx (hsub bx hbx)
        · have hb2 : 2 ≤ b.colors.length := by omega
          have hlens := mcSplit_lengths b
          have h1 : (mcSplit b).1.colors.length ≠ 0 := by omega
          have h2 : (mcSplit b).2.colors.length ≠ 0 := by omega
          rw [show mcLoop maxColors (fuel + 1) boxes =
              mcLoop maxColors fuel ((mcSplit b).1 :: (mcSplit b).2 :: rest) by
            simp only [mcLoop]; rw [if_pos hlt, hch]
            simp only []
            rw [if_neg hle, if_neg (by push_neg; exact ⟨h1, h2⟩)]]
          apply ih
          intro bx hbx
          rcases List.mem_cons.mp hbx with rfl | hbx
          · intro hempty; exact h1 (by rw [hempty]; rfl)
          · rcases List.mem_cons.mp hbx with rfl | hbx
            · intro hempty; exact h2 (by rw [hempty]; rfl)
            · exact h bx (hsub bx (List.mem_cons_of_mem b hbx))
    · rw [show mcLoop maxColors (fuel + 1) boxes = boxes by
        simp only [mcLoop]; rw [if_neg hlt]]
      exact h

/-- C3: the median-cut quantizer returns the empty list (without throwing) on
an empty pixel buffer or a non-positive target count, and every returned
palette entry carries a strictly positive member count — no entry is derived
from a zero-member box (the `null`-average filter never has to drop
anything). -/
theorem claim_C3_median_cut_safety (pixelData : List Pixel) (maxColors : ℤ) :
    ((pixelData = [] ∨ maxColors ≤ 0) → extractPaletteMedianCut pixelData maxColors = [])
    ∧ ∀ e ∈ extractPaletteMedianCut pixelData maxColors, 0 < e.count := by
  constructor
  · intro h
    unfold extractPaletteMedianCut
    rw [if_pos h]
  · intro e he
    by_cases hg : pixelData = [] ∨ maxColors ≤ 0
    · unfold extractPaletteMedianCut at he
      rw [if_pos hg] at he
      exact absurd he (by simp)
    · unfold extractPaletteMedianCut at he
      rw [if_neg hg] at he
      simp only [List.mem_filterMap] at he
      obtain ⟨box, hbox, hmap⟩ := he
      have hpx : pixelData ≠ [] := fun hc => hg (Or.inl hc)
      have hinit : ∀ bx ∈ [mkBox (pixelData.map fun p =>
          MCColor.mk p.r p.g p.b (rgbToLab p.r p.g p.b))], bx.colors ≠ [] := by
        intro bx hbx
        rcases List.mem_cons.mp hbx with rfl | hbx
        · rw [mkBox_colors]
          simpa using hpx
        · exact absurd hbx (by simp)
      have hne : box.colors ≠ [] := mcLoop_all_nonempty maxColors maxColors.toNat _ hinit box hbox
      rcases havg : getAverageColor box with _ | avg
      · rw [havg] at hmap
        exact absurd hmap (by simp)
      · rw [havg] at hmap
        simp only [Option.map_some', Option.some.injEq] at hmap
        rw [← hmap]
        have : 0 < box.colors.length := List.length_pos.mpr hne
        show (0 : ℝ) < (box.colors.length : ℝ)
        exact_mod_cast this

/-- Witness for C3: the empty buffer yields the empty palette, and on the
one-pixel buffer every returned entry has positive count. -/
theorem claim_C3_median_cut_safety_witness :
    extractPaletteMedianCut [] 5 = [] ∧
      ∀ e ∈ extractPaletteMedianCut [Pixel.mk 1 2 3 255] 5, 0 < e.count :=
  ⟨(claim_C3_median_cut_safety [] 5).1 (Or.inl rfl),
    (claim_C3_median_cut_safety [Pixel.mk 1 2 3 255] 5).2⟩

/-! ## PaletteRefiner: paletteAnalyzer.js -/

/-- One weighted color `{lab, count, rgb}` (the elements of `weightedColors`;
the same record shape serves as cluster centroid and as cluster, exactly as
in the source). -/
structure WColor where
  lab : List ℝ
  count : ℝ
  rgb : Rgb

instance : Inhabited WColor := ⟨⟨[0, 0, 0], 0, default⟩⟩

/-- Step 1 of `analyzePalette`: a raw entry becomes a weighted color. -/
def toWColor (e : RawEntry) : WColor :=
  ⟨rgbToLab e.r e.g e.b, e.count, ⟨e.r, e.g, e.b⟩⟩

/-- The `centroids.forEach` scan of the constrained assignment: running state
`(closestIdx, minDist)`, starting from `(-1, Infinity)`; a centroid takes over
when its distance is below `maxRadius` and below the current minimum. -/
def fccAux (labC : List ℝ) (maxRadius : ℝ) :
    List WColor → ℕ → ℤ × EReal → ℤ × EReal
  | [], _, s => s
  | ct :: cts, idx, s =>
    fccAux labC maxRadius cts (idx + 1)
      (if (labDistance3 labC ct.lab : EReal) < (maxRadius : EReal) ∧
          (labDistance3 labC ct.lab : EReal) < s.2
        then ((idx : ℤ), (labDistance3 labC ct.lab : EReal))
        else s)

def findClosestConstrained (labC : List ℝ) (cents : List WColor) (maxRadius : ℝ) :
    ℤ × EReal :=
  fccAux labC maxRadius cents 0 (-1, ⊤)

/-- The fallback `reduce` over all centroid indices.  It compares each
distance against the *captured* `minDist` variable (which is still `Infinity`
whenever this fallback runs) and never updates it — so `bestIdx` is replaced
on every iteration whose distance is below `minDist`. -/
def fbAux (labC : List ℝ) : List WColor → ℕ → EReal → ℕ → ℕ
  | [], _, _, best => best
  | ct :: cts, idx, minDist, best =>
    fbAux labC cts (idx + 1) minDist
      (if (labDistance3 labC ct.lab : EReal) < minDist then idx else best)

def fallbackClosest (labC : List ℝ) (cents : List WColor) (minDist : EReal) : ℕ :=
  fbAux labC cents 0 minDist 0

/-- Index of the cluster a color is pushed into: the constrained scan if it
found a centroid within radius, otherwise the fallback reduce. -/
def assignIdx (c : WColor) (cents : List WColor) (maxRadius : ℝ) : ℕ :=
  let s := findClosestConstrained c.lab cents maxRadius
  if s.1 = -1 then fallbackClosest c.lab cents s.2 else s.1.toNat

/-- `clusters[closestIdx].push(color)`. -/
def pushAt : List (List WColor) → ℕ → WColor → List (List WColor)
  | [], _, _ => []
  | c :: cs, 0, x => (c ++ [x]) :: cs
  | c :: cs, n + 1, x => c :: pushAt cs n x

/-- The whole assignment phase of one k-means iteration: start from
`Array(centroids.length).fill([])` and push every color into its cluster. -/
def assignAll (colors cents : List WColor) (maxRadius : ℝ) : List (List WColor) :=
  colors.foldl (fun cls c => pushAt cls (assignIdx c cents maxRadius) c)
    (List.replicate cents.length [])

/-- `getAverageRgb`: count-weighted average RGB of a cluster, rounded. -/
def getAverageRgb (colors : List WColor) : Rgb :=
  let total := (colors.map (·.count)).sum
  ⟨jsRoundR ((colors.map fun c => c.rgb.r * c.count).sum / total),
    jsRoundR ((colors.map fun c => c.rgb.g * c.count).sum / total),
    jsRoundR ((colors.map fun c => c.rgb.b * c.count).sum / total)⟩

/-- Centroid update: count-weighted mean Lab, total count, average RGB. -/
def updateCentroid (cluster : List WColor) : WColor :=
  let totalCount := (cluster.map (·.count)).sum
  ⟨[(cluster.map fun c => c.lab.getD 0 0 * c.count).sum / totalCount,
      (cluster.map fun c => c.lab.getD 1 0 * c.count).sum / totalCount,
      (cluster.map fun c => c.lab.getD 2 0 * c.count).sum / totalCount],
    totalCount, getAverageRgb cluster⟩

/-- One full k-means iteration body: assign, drop empty clusters, recompute
centroids. -/
def kmeansUpdateStep (colors cents : List WColor) (maxRadius : ℝ) : List WColor :=
  ((assignAll colors cents maxRadius).filter fun cl => cl.length != 0).map updateCentroid

/-- `isConverged`: same length and every centroid moved less than the
threshold (1.0 at the call site). -/
def isConverged (old new : List WColor) (threshold : ℝ) : Prop :=
  old.length = new.length ∧
    ∀ i < old.length,
      labDistance3 ((old.getD i default).lab) ((new.getD i default).lab) < threshold

/-- The `for (iter = 0; iter < maxIterations; iter++)` loop of
`constrainedKmeans`: compute the new centroids; if converged, `break` keeps
the *previous* centroids, else continue with the new ones. -/
def kmeansLoop (colors : List WColor) (maxRadius : ℝ) : ℕ → List WColor → List WColor
  | 0, cents => cents
  | fuel + 1, cents =>
    let newCentroids := kmeansUpdateStep colors cents maxRadius
    if isConverged cents newCentroids 1.0 then cents
    else kmeansLoop colors maxRadius fuel newCentroids

/-- JS `Math.min(...xs)` (which is `Infinity` on the empty spread). -/
def jsMin (l : List ℝ) : EReal := l.foldr (fun x m => min (x : EReal) m) ⊤

/-- The seeding scan of k-means++: accumulate distances until the running sum
reaches the threshold, returning the index pushed (or `none` if the loop body
never fires — unreachable while the random draws lie in `[0, 1)`). -/
def pickIdx : List EReal → EReal → EReal → ℕ → Option ℕ
  | [], _, _, _ => none
  | d :: ds, threshold, accum, i =>
    if accum + d ≥ threshold then some i else pickIdx ds threshold (accum + d) (i + 1)

/-- The `while (centroids.length < k)` loop of `initializeCentroids`.  The
`n`-th pass consumes the random draw `rand n`.  Fuel bounds the number of
passes; `k.toNat` passes suffice because each reachable pass pushes exactly
one centroid. -/
def icLoop (colors : List WColor) (k : ℤ) (rand : ℕ → ℝ) :
    ℕ → ℕ → List WColor → List WColor
  | 0, _, cents => cents
  | fuel + 1, n, cents =>
    if (cents.length : ℤ) < k then
      let distances := colors.map fun c =>
        jsMin (cents.map fun ct => labDistance3 c.lab ct.lab)
      let dsum := distances.foldl (· + ·) 0
      let threshold := (rand n : EReal) * dsum
      match pickIdx distances threshold 0 0 with
      | some i => icLoop colors k rand fuel (n + 1) (cents ++ [colors.getD i default])
      | none => cents
    else cents

/-- `initializeCentroids` (k-means++): seed with a uniformly random color,
then repeatedly pick a color with probability proportional to its distance
to the nearest existing centroid.  `rand : ℕ → ℝ` is the stream of
`Math.random()` draws (draw 0 picks the seed, draw `n ≥ 1` feeds pass `n`). -/
def initializeCentroids (colors : List WColor) (k : ℤ) (rand : ℕ → ℝ) : List WColor :=
  icLoop colors k rand k.toNat 1
    [colors.getD (⌊rand 0 * colors.length⌋).toNat default]

/-- The cluster combination inside `mergeCloseClusters`: count-weighted Lab
mean, summed count, average RGB of the pair. -/
def combineClusters (current cj : WColor) : WColor :=
  ⟨[(current.lab.getD 0 0 * current.count + cj.lab.getD 0 0 * cj.count) /
        (current.count + cj.count),
      (current.lab.getD 1 0 * current.count + cj.lab.getD 1 0 * cj.count) /
        (current.count + cj.count),
      (current.lab.getD 2 0 * current.count + cj.lab.getD 2 0 * cj.count) /
        (current.count + cj.count)],
    current.count + cj.count, getAverageRgb [current, cj]⟩

/-- Inner `j` loop of `mergeCloseClusters`: absorb every unused later cluster
within `maxRadius` of the running `current`, as long as the remaining cluster
count stays above `minClusters`.  `mlen` is `merged.length` at entry. -/
def mergeInner (cs : List WColor) (maxRadius : ℝ) (minClusters : ℤ) (mlen : ℕ) :
    ℕ → ℕ → WColor → Finset ℕ → WColor × Finset ℕ
  | 0, _, current, used => (current, used)
  | fuel + 1, j, current, used =>
    if j < cs.length then
      if j ∈ used then mergeInner cs maxRadius minClusters mlen fuel (j + 1) current used
      else
        let cj := cs.getD j default
        if labDistance3 current.lab cj.lab < maxRadius ∧
            (mlen : ℤ) + (cs.length : ℤ) - (used.card : ℤ) > minClusters then
          mergeInner cs maxRadius minClusters mlen fuel (j + 1) (combineClusters current cj)
            (insert j used)
        else mergeInner cs maxRadius minClusters mlen fuel (j + 1) current used
    else (current, used)

/-- Outer `i` loop of `mergeCloseClusters`. -/
def mergeOuter (cs : List WColor) (maxRadius : ℝ) (minClusters : ℤ) :
    ℕ → ℕ → Finset ℕ → List WColor → List WColor
  | 0, _, _, merged => merged
  | fuel + 1, i, used, merged =>
    if i < cs.length then
      if i ∈ used then mergeOuter cs maxRadius minClusters fuel (i + 1) used merged
      else
        let r := mergeInner cs maxRadius minClusters merged.length (cs.length + 1) (i + 1)
          (cs.getD i default) used
        mergeOuter cs maxRadius minClusters fuel (i + 1) (insert i r.2) (merged ++ [r.1])
    else merged

/-- `mergeCloseClusters`: sort descending by count (stable), then greedily
absorb close clusters.  Fuel `length + 1` covers every pass of either loop. -/
def mergeCloseClusters (clusters : List WColor) (maxRadius : ℝ) (minClusters : ℤ) :
    List WColor :=
  let cs := sortStable (fun a b : WColor => b.count ≤ a.count) clusters
  mergeOuter cs maxRadius minClusters (cs.length + 1) 0 ∅ []

/-- `constrainedKmeans`: k-means++ seeding, radius-constrained iteration,
close-cluster merging. -/
def constrainedKmeans (colors : List WColor) (maxRadius : ℝ)
    (maxClusters minClusters : ℤ) (maxIterations : ℕ) (rand : ℕ → ℝ) : List WColor :=
  mergeCloseClusters
    (kmeansLoop colors maxRadius maxIterations (initializeCentroids colors maxClusters rand))
    maxRadius minClusters

/-- The `PaletteColor` record of `paletteAnalyzer.js`: its fields are
`rgb`, `count`, `lab`, `isBackground`, `isFeature` and `hex` — there is no
`percentage` and no `isHidden` field. -/
structure PaletteColor where
  rgb : Rgb
  count : ℝ
  lab : List ℝ
  isBackground : Bool
  isFeature : Bool
  hex : List Char

instance : Inhabited PaletteColor := ⟨⟨default, 0, [0, 0, 0], false, false, []⟩⟩

/-- The `PaletteColor` constructor on a valid rgb object (the only shape the
pipeline produces).  The source calls `rgbToHex(r, g, b)` with three scalar
arguments although `rgbToHex` expects one array, so `Array.isArray` fails
inside and the `hex` field is always the error color `#FF00FF`. -/
def mkPaletteColor (rgbObj : Rgb) (count : ℝ) : PaletteColor :=
  { rgb := rgbObj, count := count, lab := rgbToLab rgbObj.r rgbObj.g rgbObj.b,
    isBackground := false, isFeature := false, hex := "#FF00FF".toList }

/-- State of the breadth-first similar-color scan: collected group, visited
set, queue additions. -/
def flsrScan (palette : List PaletteColor) (threshold : ℝ) (baseIdx : ℕ)
    (group : List ℕ) (visited : Finset ℕ) : List ℕ × Finset ℕ × List ℕ :=
  (List.range palette.length).foldl
    (fun st j =>
      if j ∈ st.2.1 then st
      else if labDistance3 ((palette.getD baseIdx default).lab)
          ((palette.getD j default).lab) ≤ threshold then
        (st.1 ++ [j], insert j st.2.1, st.2.2 ++ [j])
      else st)
    (group, visited, [])

/-- Queue processing of `findLargestSimilarRegion`'s BFS (by color index). -/
def flsrBfs (palette : List PaletteColor) (threshold : ℝ) :
    ℕ → List ℕ → Finset ℕ → List ℕ → List ℕ × Finset ℕ
  | 0, _, visited, group => (group, visited)
  | _ + 1, [], visited, group => (group, visited)
  | fuel + 1, baseIdx :: queue, visited, group =>
    let st := flsrScan palette threshold baseIdx group visited
    flsrBfs palette threshold fuel (queue ++ st.2.2) st.2.1 st.1

/-- Outer loop of `findLargestSimilarRegion`: group the palette indices into
similarity components. -/
def flsrGroups (palette : List PaletteColor) (threshold : ℝ) :
    ℕ → ℕ → Finset ℕ → List (List ℕ) → List (List ℕ)
  | 0, _, _, groups => groups
  | fuel + 1, i, visited, groups =>
    if i < palette.length then
      if i ∈ visited then flsrGroups palette threshold fuel (i + 1) visited groups
      else
        let r := flsrBfs palette threshold (palette.length + 1) [i] (insert i visited) [i]
        flsrGroups palette threshold fuel (i + 1) r.2 (groups ++ [r.1])
    else groups

/-- `findLargestSimilarRegion`, tracking colors by palette index: `none`
models the JS `null` (empty palette, or no group with positive pixel count
beats the initial `maxPixelCount = 0`). -/
def findLargestSimilarRegionIdx (palette : List PaletteColor) (threshold : ℝ) :
    Option (List ℕ) :=
  if palette = [] then none
  else
    let groups := flsrGroups palette threshold (palette.length + 1) 0 ∅ []
    (groups.foldl
      (fun (best : Option (List ℕ) × ℝ) g =>
        let pixelCount := (g.map fun i => (palette.getD i default).count).sum
        if pixelCount > best.2 then (some g, pixelCount) else best)
      (none, 0)).1

/-- `detectBackground`: flag every color of the largest similar region as
background (the HSV gate in the source is commented out, so the flag is set
unconditionally on the region; `totalPixels` is accepted but unused). -/
def detectBackground (palette : List PaletteColor) (threshold : ℝ)
    (totalPixels : ℝ) : List PaletteColor :=
  match findLargestSimilarRegionIdx palette threshold with
  | none => palette
  | some region =>
    if region.length ≠ 0 then
      (List.range palette.length).map fun i =>
        if i ∈ region then { palette.getD i default with isBackground := true }
        else palette.getD i default
    else palette

/-- `identifyFeatures`: a singleton palette is always a feature; otherwise a
color is a feature when its mean distance to the other palette entries
(reference equality in the source = index inequality here) exceeds the
threshold.  `totalPixels` is accepted but unused. -/
def identifyFeatures (palette : List PaletteColor) (threshold : ℝ)
    (totalPixels : ℝ) : List PaletteColor :=
  (List.range palette.length).map fun i =>
    let color := palette.getD i default
    if palette.length < 2 then { color with isFeature := true }
    else
      let avgDist := ((List.range palette.length).map fun j =>
          if j = i then 0
          else labDistance3 color.lab ((palette.getD j default).lab)).sum /
        ((palette.length : ℝ) - 1)
      { color with isFeature := avgDist > threshold }

/-- `analyzePalette` from `paletteAnalyzer.js`.  `rand` is the stream of
`Math.random()` draws consumed by `initializeCentroids` (the only source of
randomness).  `maxIterations` is fixed to 20 and the merge radius is
`10 ^ mergeIntensity * 0.1` as in the source. -/
def analyzePalette (rawPalette : List RawEntry)
    (featureThreshold totalPixels mergeIntensity backgroundThreshold : ℝ)
    (maxColors minColors : ℤ) (rand : ℕ → ℝ) : List PaletteColor :=
  if rawPalette = [] then []
  else
    let weightedColors := rawPalette.map toWColor
    let actualRadius := (10 : ℝ) ^ mergeIntensity * 0.1
    let clusters := constrainedKmeans weightedColors actualRadius maxColors minColors 20 rand
    let palette := clusters.map fun cluster => mkPaletteColor cluster.rgb cluster.count
    let palette := detectBackground palette backgroundThreshold totalPixels
    let palette := identifyFeatures palette featureThreshold totalPixels
    sortStable (fun a b : PaletteColor => a.lab.getD 0 0 ≤ b.lab.getD 0 0) palette

/-! ### Weight conservation through the refinement pipeline (C1) -/

def sumCounts (l : List WColor) : ℝ := (l.map (·.count)).sum

def totalCounts (cls : List (List WColor)) : ℝ := (cls.map sumCounts).sum

theorem pushAt_length (cls : List (List WColor)) (i : ℕ) (x : WColor) :
    (pushAt cls i x).length = cls.length := by
  induction cls generalizing i with
  | nil => rfl
  | cons c cs ih =>
    cases i with
    | zero => rfl
    | succ n => simpa [pushAt] using ih n

theorem totalCounts_pushAt (cls : List (List WColor)) (i : ℕ) (x : WColor)
    (h : i < cls.length) :
    totalCounts (pushAt cls i x) = totalCounts cls + x.count := by
  induction cls generalizing i with
  | nil => simp at h
  | cons c cs ih =>
    cases i with
    | zero =>
      simp only [pushAt, totalCounts, List.map_cons, List.sum_cons, sumCounts,
        List.map_append, List.sum_append]
      simp [List.sum_cons]
      ring
    | succ n =>
      have hn : n < cs.length := by simpa using h
      simp only [pushAt, totalCounts, List.map_cons, List.sum_cons]
      have := ih n hn
      simp only [totalCounts] at this
      rw [this]
      ring

theorem fccAux_fst_bound (labC : List ℝ) (maxRadius : ℝ) (N : ℕ) :
    ∀ (cts : List WColor) (idx : ℕ) (s : ℤ × EReal),
      (s.1 = -1 ∨ (0 ≤ s.1 ∧ s.1.toNat < N)) → idx + cts.length ≤ N →
      ((fccAux labC maxRadius cts idx s).1 = -1 ∨
        (0 ≤ (fccAux labC maxRadius cts idx s).1 ∧
          (fccAux labC maxRadius cts idx s).1.toNat < N)) := by
  intro cts
  induction cts with
  | nil => intro idx s hs _; exact hs
  | cons ct cts ih =>
    intro idx s hs hbound
    simp only [fccAux]
    apply ih (idx + 1)
    · split
      · right
        constructor
        · positivity
        · simp only [Int.toNat_natCast]
          simp only [List.length_cons] at hbound
          omega
      · exact hs
    · simp only [List.length_cons] at hbound
      omega

theorem fbAux_bound (labC : List ℝ) (N : ℕ) :
    ∀ (cts : List WColor) (idx : ℕ) (minDist : EReal) (best : ℕ),
      best < N → idx + cts.length ≤ N →
      fbAux labC cts idx minDist best < N := by
  intro cts
  induction cts with
  | nil => intro idx minDist best hb _; exact hb
  | cons ct cts ih =>
    intro idx minDist best hb hbound
    simp only [fbAux]
    apply ih (idx + 1)
    · split
      · simp only [List.length_cons] at hbound
        omega
      · exact hb
    · simp only [List.length_cons] at hbound
      omega

theorem assignIdx_lt (c : WColor) (cents : List WColor) (maxRadius : ℝ)
    (h : cents ≠ []) : assignIdx c cents maxRadius < cents.length := by
  have hN : 0 < cents.length := List.length_pos.mpr h
  unfold assignIdx findClosestConstrained
  have hb := fccAux_fst_bound c.lab maxRadius cents.length cents 0 (-1, ⊤)
    (Or.inl rfl) (by omega)
  dsimp only
  split
  · exact fbAux_bound c.lab cents.length cents 0 _ 0 hN (by omega)
  · rename_i hne
    rcases hb with hb | hb
    · exact absurd hb hne
    · exact hb.2

theorem assignAll_length (colors cents : List WColor) (maxRadius : ℝ) :
    (assignAll colors cents maxRadius).length = cents.length := by
  unfold assignAll
  have : ∀ (cs : List WColor) (cls : List (List WColor)),
      (cs.foldl (fun cls c => pushAt cls (assignIdx c cents maxRadius) c) cls).length =
        cls.length := by
    intro cs
    induction cs with
    | nil => intro cls; rfl
    | cons c cs ih =>
      intro cls
      rw [List.foldl_cons, ih, pushAt_length]
  rw [this, List.length_replicate]

theorem totalCounts_replicate_nil (n : ℕ) :
    totalCounts (List.replicate n ([] : List WColor)) = 0 := by
  induction n with
  | zero => rfl
  | succ n ih =>
    simp only [List.replicate_succ, totalCounts, List.map_cons, List.sum_cons]
    simp only [totalCounts] at ih
    rw [ih, sumCounts]
    simp

theorem totalCounts_assignAll (colors cents : List WColor) (maxRadius : ℝ)
    (h : cents ≠ []) :
    totalCounts (assignAll colors cents maxRadius) = sumCounts colors := by
  unfold assignAll
  have main : ∀ (cs : List WColor) (cls : List (List WColor)), cls.length = cents.length →
      totalCounts (cs.foldl (fun cls c => pushAt cls (assignIdx c cents maxRadius) c) cls) =
        totalCounts cls + sumCounts cs := by
    intro cs
    induction cs with
    | nil =>
      intro cls _
      simp [sumCounts]
    | cons c cs ih =>
      intro cls hlen
      rw [List.foldl_cons, ih _ (by rw [pushAt_length]; exact hlen),
        totalCounts_pushAt _ _ _ (by rw [hlen]; exact assignIdx_lt c cents maxRadius h)]
      simp only [sumCounts, List.map_cons, List.sum_cons]
      ring
  rw [main _ _ (List.length_replicate _ _), totalCounts_replicate_nil]
  ring

theorem totalCounts_filter (cls : List (List WColor)) :
    totalCounts (cls.filter fun cl => cl.length != 0) = totalCounts cls := by
  induction cls with
  | nil => rfl
  | cons c cs ih =>
    by_cases hc : c.length = 0
    · have hcnil : c = [] := List.length_eq_zero.mp hc
      subst hcnil
      simp only [List.filter_cons, totalCounts, List.map_cons, List.sum_cons]
      simp only [totalCounts] at ih
      simpa [sumCounts] using ih
    · simp only [List.filter_cons, totalCounts, List.map_cons, List.sum_cons]
      rw [if_pos (by simpa using hc)]
      simp only [List.map_cons, List.sum_cons]
      simp only [totalCounts] at ih
      rw [ih]

theorem sumCounts_map_updateCentroid (cls : List (List WColor)) :
    sumCounts (cls.map updateCentroid) = totalCounts cls := by
  induction cls with
  | nil => rfl
  | cons c cs ih =>
    simp only [List.map_cons, sumCounts, List.sum_cons, totalCounts] at *
    rw [ih]
    rfl

theorem kmeansUpdateStep_sum (colors cents : List WColor) (maxRadius : ℝ)
    (h : cents ≠ []) :
    sumCounts (kmeansUpdateStep colors cents maxRadius) = sumCounts colors := by
  unfold kmeansUpdateStep
  rw [sumCounts_map_updateCentroid, totalCounts_filter, totalCounts_assignAll _ _ _ h]

theorem kmeansUpdateStep_ne_nil (colors cents : List WColor) (maxRadius : ℝ)
    (h : cents ≠ []) (hpos : 0 < sumCounts colors) :
    kmeansUpdateStep colors cents maxRadius ≠ [] := by
  intro hc
  have := kmeansUpdateStep_sum colors cents maxRadius h
  rw [hc] at this
  simp only [sumCounts, List.map_nil, List.sum_nil] at this
  simp only [sumCounts] at hpos
  linarith

theorem kmeansLoop_succ (colors : List WColor) (maxRadius : ℝ) (fuel : ℕ)
    (cents : List WColor) :
    kmeansLoop colors maxRadius (fuel + 1) cents =
      if isConverged cents (kmeansUpdateStep colors cents maxRadius) 1.0 then cents
      else kmeansLoop colors maxRadius fuel (kmeansUpdateStep colors cents maxRadius) := rfl

theorem kmeansLoop_sum (colors : List WColor) (maxRadius : ℝ)
    (hpos : 0 < sumCounts colors) :
    ∀ (fuel : ℕ) (cents : List WColor), cents ≠ [] → sumCounts cents = sumCounts colors →
      sumCounts (kmeansLoop colors maxRadius fuel cents) = sumCounts colors ∧
        kmeansLoop colors maxRadius fuel cents ≠ [] := by
  intro fuel
  induction fuel with
  | zero => intro cents hne hsum; exact ⟨hsum, hne⟩
  | succ fuel ih =>
    intro cents hne hsum
    rw [kmeansLoop_succ]
    split
    · exact ⟨hsum, hne⟩
    · exact ih _ (kmeansUpdateStep_ne_nil colors cents maxRadius hne hpos)
        (kmeansUpdateStep_sum colors cents maxRadius hne)

theorem kmeansLoop_sum_entry (colors : List WColor) (maxRadius : ℝ)
    (hpos : 0 < sumCounts colors) (fuel : ℕ) (cents : List WColor)
    (hne : cents ≠ [])
    (hnc : ¬ isConverged cents (kmeansUpdateStep colors cents maxRadius) 1.0)
    (hfuel : 1 ≤ fuel) :
    sumCounts (kmeansLoop colors maxRadius fuel cents) = sumCounts colors ∧
      kmeansLoop colors maxRadius fuel cents ≠ [] := by
  cases fuel with
  | zero => omega
  | succ fuel =>
    rw [kmeansLoop_succ, if_neg hnc]
    exact kmeansLoop_sum colors maxRadius hpos fuel _
      (kmeansUpdateStep_ne_nil colors cents maxRadius hne hpos)
      (kmeansUpdateStep_sum colors cents maxRadius hne)

theorem icLoop_ne_nil (colors : List WColor) (k : ℤ) (rand : ℕ → ℝ) :
    ∀ (fuel n : ℕ) (cents : List WColor), cents ≠ [] →
      icLoop colors k rand fuel n cents ≠ [] := by
  intro fuel
  induction fuel with
  | zero => intro n cents h; exact h
  | succ fuel ih =>
    intro n cents h
    simp only [icLoop]
    split
    · split
      · apply ih
        simp
      · exact h
    · exact h

theorem initializeCentroids_ne_nil (colors : List WColor) (k : ℤ) (rand : ℕ → ℝ) :
    initializeCentroids colors k rand ≠ [] := by
  unfold initializeCentroids
  apply icLoop_ne_nil
  simp

/-- Total count of the not-yet-used clusters of the sorted array. -/
def restSum (cs : List WColor) (used : Finset ℕ) : ℝ :=
  ((Finset.range cs.length) \ used).sum fun k => (cs.getD k default).count

theorem restSum_insert (cs : List WColor) (used : Finset ℕ) (k : ℕ)
    (hk : k < cs.length) (hnot : k ∉ used) :
    restSum cs (insert k used) = restSum cs used - (cs.getD k default).count := by
  unfold restSum
  have hset : Finset.range cs.length \ insert k used =
      (Finset.range cs.length \ used).erase k := by
    ext x
    simp only [Finset.mem_sdiff, Finset.mem_insert, Finset.mem_erase, Finset.mem_range]
    tauto
  rw [hset, Finset.sum_erase_eq_sub]
  simp only [Finset.mem_sdiff, Finset.mem_range]
  exact ⟨hk, hnot⟩

theorem restSum_all_used (cs : List WColor) (used : Finset ℕ)
    (h : ∀ k < cs.length, k ∈ used) : restSum cs used = 0 := by
  unfold restSum
  have : Finset.range cs.length \ used = ∅ := by
    ext x
    simp only [Finset.mem_sdiff, Finset.mem_range, Finset.not_mem_empty, iff_false, not_and,
      not_not]
    exact h x
  rw [this, Finset.sum_empty]

theorem restSum_empty (cs : List WColor) : restSum cs ∅ = sumCounts cs := by
  unfold restSum sumCounts
  rw [Finset.sdiff_empty]
  induction cs with
  | nil => simp
  | cons c cs ih =>
    rw [List.length_cons, Finset.sum_range_succ', List.map_cons, List.sum_cons]
    simp only [List.getD_cons_succ, List.getD_cons_zero]
    rw [ih]
    ring

theorem combineClusters_count (a b : WColor) :
    (combineClusters a b).count = a.count + b.count := rfl

theorem mergeInner_spec (cs : List WColor) (maxRadius : ℝ) (minClusters : ℤ) (mlen : ℕ) :
    ∀ (fuel j : ℕ) (current : WColor) (used : Finset ℕ),
      (mergeInner cs maxRadius minClusters mlen fuel j current used).1.count +
          restSum cs (mergeInner cs maxRadius minClusters mlen fuel j current used).2 =
        current.count + restSum cs used
      ∧ used ⊆ (mergeInner cs maxRadius minClusters mlen fuel j current used).2
      ∧ ∀ k ∈ (mergeInner cs maxRadius minClusters mlen fuel j current used).2,
          k ∈ used ∨ (j ≤ k ∧ k < cs.length) := by
  intro fuel
  induction fuel with
  | zero =>
    intro j current used
    exact ⟨rfl, Finset.Subset.refl _, fun k hk => Or.inl hk⟩
  | succ fuel ih =>
    intro j current used
    simp only [mergeInner]
    by_cases hj : j < cs.length
    · rw [if_pos hj]
      by_cases hju : j ∈ used
      · rw [if_pos hju]
        obtain ⟨ha, hb, hc⟩ := ih (j + 1) current used
        exact ⟨ha, hb, fun k hk => (hc k hk).imp_right fun h => ⟨by omega, h.2⟩⟩
      · rw [if_neg hju]
        by_cases hcond : labDistance3 current.lab (cs.getD j default).lab < maxRadius ∧
            (mlen : ℤ) + (cs.length : ℤ) - (used.card : ℤ) > minClusters
        · rw [if_pos hcond]
          obtain ⟨ha, hb, hc⟩ := ih (j + 1) (combineClusters current (cs.getD j default))
            (insert j used)
          refine ⟨?_, ?_, ?_⟩
          · rw [ha, combineClusters_count, restSum_insert cs used j hj hju]
            ring
          · exact fun k hk => hb (Finset.mem_insert_of_mem hk)
          · intro k hk
            rcases hc k hk with hk' | hk'
            · rcases Finset.mem_insert.mp hk' with rfl | hk''
              · exact Or.inr ⟨le_refl _, hj⟩
              · exact Or.inl hk''
            · exact Or.inr ⟨by omega, hk'.2⟩
        · rw [if_neg hcond]
          obtain ⟨ha, hb, hc⟩ := ih (j + 1) current used
          exact ⟨ha, hb, fun k hk => (hc k hk).imp_right fun h => ⟨by omega, h.2⟩⟩
    · rw [if_neg hj]
      exact ⟨rfl, Finset.Subset.refl _, fun k hk => Or.inl hk⟩

theorem sumCounts_append_singleton (l : List WColor) (x : WColor) :
    sumCounts (l ++ [x]) = sumCounts l + x.count := by
  simp [sumCounts]

theorem mergeOuter_sum (cs : List WColor) (maxRadius : ℝ) (minClusters : ℤ) :
    ∀ (fuel i : ℕ) (used : Finset ℕ) (merged : List WColor),
      cs.length - i < fuel → (∀ k < i, k ∈ used) →
      sumCounts (mergeOuter cs maxRadius minClusters fuel i used merged) =
        sumCounts merged + restSum cs used := by
  intro fuel
  induction fuel with
  | zero =>
    intro i used merged hfuel _
    omega
  | succ fuel ih =>
    intro i used merged hfuel hused
    simp only [mergeOuter]
    by_cases hi : i < cs.length
    · rw [if_pos hi]
      by_cases hiu : i ∈ used
      · rw [if_pos hiu]
        apply ih (i + 1) used merged (by omega)
        intro k hk
        rcases Nat.lt_succ_iff_lt_or_eq.mp hk with hk | rfl
        · exact hused k hk
        · exact hiu
      · rw [if_neg hiu]
        obtain ⟨ha, hb, hc⟩ := mergeInner_spec cs maxRadius minClusters merged.length
          (cs.length + 1) (i + 1) (cs.getD i default) used
        set r := mergeInner cs maxRadius minClusters merged.length
          (cs.length + 1) (i + 1) (cs.getD i default) used with hr
        have hir : i ∉ r.2 := by
          intro hmem
          rcases hc i hmem with h | h
          · exact hiu h
          · omega
        rw [ih (i + 1) (insert i r.2) (merged ++ [r.1]) (by omega) ?_]
        · rw [sumCounts_append_singleton, restSum_insert cs r.2 i hi hir]
          have : r.1.count + restSum cs r.2 = (cs.getD i default).count + restSum cs used := ha
          ring_nf
          ring_nf at this
          linarith
        · intro k hk
          rcases Nat.lt_succ_iff_lt_or_eq.mp hk with hk | rfl
          · exact Finset.mem_insert_of_mem (hb (hused k hk))
          · exact Finset.mem_insert_self _ _
    · rw [if_neg hi]
      rw [restSum_all_used cs used fun k hk => hused k (by omega)]
      ring

theorem sumCounts_perm (l₁ l₂ : List WColor) (h : l₁.Perm l₂) :
    sumCounts l₁ = sumCounts l₂ :=
  List.Perm.sum_eq (h.map (·.count))

theorem mergeCloseClusters_sum (clusters : List WColor) (maxRadius : ℝ)
    (minClusters : ℤ) :
    sumCounts (mergeCloseClusters clusters maxRadius minClusters) = sumCounts clusters := by
  unfold mergeCloseClusters
  rw [mergeOuter_sum _ _ _ _ 0 ∅ [] (by omega) (by omega)]
  rw [restSum_empty]
  have := sumCounts_perm _ _ (sortStable_perm (fun a b : WColor => b.count ≤ a.count) clusters)
  simp only [sumCounts, List.map_nil, List.sum_nil] at *
  linarith

theorem range_map_count_sum (p : List PaletteColor) (G : ℕ → PaletteColor)
    (hG : ∀ i < p.length, (G i).count = (p.getD i default).count) :
    (((List.range p.length).map G).map (·.count)).sum = (p.map (·.count)).sum := by
  induction p generalizing G with
  | nil => rfl
  | cons c p ih =>
    rw [List.length_cons, List.range_succ_eq_map]
    simp only [List.map_cons, List.map_map, List.sum_cons]
    rw [hG 0 (by simp), List.getD_cons_zero]
    congr 1
    have := ih (fun k => G (k + 1)) (fun i hi => by
      have h := hG (i + 1) (by simpa using Nat.succ_lt_succ hi)
      simpa [List.getD_cons_succ] using h)
    simp only [List.map_map] at this
    simpa [Function.comp_def, Nat.succ_eq_add_one] using this

theorem detectBackground_counts (p : List PaletteColor) (threshold totalPixels : ℝ) :
    ((detectBackground p threshold totalPixels).map (·.count)).sum =
      (p.map (·.count)).sum := by
  unfold detectBackground
  rcases findLargestSimilarRegionIdx p threshold with _ | region
  · rfl
  · simp only []
    split
    · apply range_map_count_sum
      intro i hi
      split <;> rfl
    · rfl

theorem identifyFeatures_counts (p : List PaletteColor) (threshold totalPixels : ℝ) :
    ((identifyFeatures p threshold totalPixels).map (·.count)).sum =
      (p.map (·.count)).sum := by
  unfold identifyFeatures
  apply range_map_count_sum
  intro i hi
  split <;> rfl

theorem sortStable_palette_sum (ok : PaletteColor → PaletteColor → Prop)
    (p : List PaletteColor) :
    ((sortStable ok p).map (·.count)).sum = (p.map (·.count)).sum :=
  List.Perm.sum_eq ((sortStable_perm ok p).map (·.count))

theorem map_mkPaletteColor_counts (clusters : List WColor) :
    ((clusters.map fun cl => mkPaletteColor cl.rgb cl.count).map (·.count)).sum =
      sumCounts clusters := by
  rw [List.map_map]
  rfl

theorem map_toWColor_counts (raw : List RawEntry) :
    sumCounts (raw.map toWColor) = (raw.map (·.count)).sum := by
  unfold sumCounts
  rw [List.map_map]
  rfl

/-- C1 (amended): the sum of `count` over the palette returned by
`analyzePalette` equals the sum of the input counts, for every non-empty
input with positive counts and every configuration, PROVIDED the k-means
convergence test does not fire on the very first iteration (hypothesis
`hnc`).  When it does fire at iteration 0 the loop returns the raw k-means++
seed entries, whose counts need not add up to the input total — see
`claim_C1_conservation_counterexample`. -/
theorem claim_C1_conservation (rawPalette : List RawEntry)
    (featureThreshold totalPixels mergeIntensity backgroundThreshold : ℝ)
    (maxColors minColors : ℤ) (rand : ℕ → ℝ)
    (hne : rawPalette ≠ [])
    (hpos : ∀ e ∈ rawPalette, 0 < e.count)
    (hnc : ¬ isConverged (initializeCentroids (rawPalette.map toWColor) maxColors rand)
        (kmeansUpdateStep (rawPalette.map toWColor)
          (initializeCentroids (rawPalette.map toWColor) maxColors rand)
          ((10 : ℝ) ^ mergeIntensity * 0.1)) 1.0) :
    ((analyzePalette rawPalette featureThreshold totalPixels mergeIntensity
        backgroundThreshold maxColors minColors rand).map (·.count)).sum =
      (rawPalette.map (·.count)).sum := by
  have hposS : 0 < sumCounts (rawPalette.map toWColor) := by
    rw [map_toWColor_counts]
    apply List.sum_pos
    · intro x hx
      obtain ⟨e, he, rfl⟩ := List.mem_map.mp hx
      exact hpos e he
    · simpa using hne
  have hseeds := initializeCentroids_ne_nil (rawPalette.map toWColor) maxColors rand
  obtain ⟨hloop, _⟩ := kmeansLoop_sum_entry (rawPalette.map toWColor)
    ((10 : ℝ) ^ mergeIntensity * 0.1) hposS 20
    (initializeCentroids (rawPalette.map toWColor) maxColors rand) hseeds hnc
    (by norm_num)
  unfold analyzePalette
  rw [if_neg hne]
  simp only []
  rw [sortStable_palette_sum, identifyFeatures_counts, detectBackground_counts,
    map_mkPaletteColor_counts]
  unfold constrainedKmeans
  rw [mergeCloseClusters_sum, hloop, map_toWColor_counts]

/-! ### Concrete evaluation support -/

/-- For gray inputs `v ≤ 10` every branch of `rgbToLab` is linear (the sRGB
gamma threshold 0.04045 corresponds to byte value ~10.3 and the CIE epsilon
is never reached), so the Lab value is an explicit rational expression. -/
theorem rgbToLab_linear (v : ℝ) (h0 : 0 ≤ v) (h1 : v ≤ 10) :
    rgbToLab v v v =
      [903.3 * (v / 255 / 12.92 * 100 / 100),
        500 * ((903.3 * (v / 255 / 12.92 * 100 * 0.9505 / 95.047) + 16) / 116 -
          (903.3 * (v / 255 / 12.92 * 100 / 100) + 16) / 116),
        200 * ((903.3 * (v / 255 / 12.92 * 100 / 100) + 16) / 116 -
          (903.3 * (v / 255 / 12.92 * 100 * 1.089 / 108.883) + 16) / 116)] := by
  simp only [rgbToLab]
  split_ifs <;>
    first
      | (exfalso; ring_nf at *; linarith)
      | (simp only [List.cons.injEq, and_true]; refine ⟨by ring, by ring, by ring⟩)

theorem rgbToLab_zero : rgbToLab 0 0 0 = [0, 0, 0] := by
  rw [rgbToLab_linear 0 (by norm_num) (by norm_num)]
  norm_num

/-- `rgbToLab` always returns a 3-element array. -/
theorem rgbToLab_shape (r g b : ℝ) : ∃ x y z : ℝ, rgbToLab r g b = [x, y, z] :=
  ⟨_, _, _, rfl⟩

theorem icLoop_stop (colors : List WColor) (k : ℤ) (rand : ℕ → ℝ) (fuel n : ℕ)
    (cents : List WColor) (h : ¬ ((cents.length : ℤ) < k)) :
    icLoop colors k rand fuel n cents = cents := by
  cases fuel with
  | zero => rfl
  | succ fuel => simp [icLoop, h]

theorem jsMin_zeros (l : List ℝ) (hne : l ≠ []) (h : ∀ x ∈ l, x = 0) :
    jsMin l = ((0 : ℝ) : EReal) := by
  induction l with
  | nil => exact absurd rfl hne
  | cons x xs ih =>
    have hx : x = 0 := h x (by simp)
    subst hx
    show min ((0 : ℝ) : EReal) (jsMin xs) = ((0 : ℝ) : EReal)
    rcases xs with _ | ⟨y, ys⟩
    · show min ((0 : ℝ) : EReal) ⊤ = ((0 : ℝ) : EReal)
      simp
    · rw [ih (by simp) fun z hz => h z (by simp [hz])]
      simp

theorem icLoop_single_exact (c : WColor) (k : ℤ) (rand : ℕ → ℝ) :
    ∀ (fuel n : ℕ) (cents : List WColor), cents ≠ [] → (∀ x ∈ cents, x = c) →
      icLoop [c] k rand fuel n cents =
        cents ++ List.replicate (min fuel (k.toNat - cents.length)) c := by
  intro fuel
  induction fuel with
  | zero => intro n cents _ _; simp [icLoop]
  | succ fuel ih =>
    intro n cents hne hall
    by_cases hk : (cents.length : ℤ) < k
    · have hdist : ([c].map fun c' =>
          jsMin (cents.map fun ct => labDistance3 c'.lab ct.lab)) = [((0 : ℝ) : EReal)] := by
        simp only [List.map_cons, List.map_nil]
        congr 1
        apply jsMin_zeros
        · simpa using hne
        · intro x hx
          obtain ⟨ct, hct, rfl⟩ := List.mem_map.mp hx
          rw [hall ct hct, labDistance3_self]
      simp only [icLoop, if_pos hk, hdist]
      have hsum : ([((0 : ℝ) : EReal)].foldl (· + ·) 0) = (0 : EReal) := by simp
      rw [hsum]
      have hthr : ((rand n : ℝ) : EReal) * (0 : EReal) = 0 := mul_zero _
      rw [hthr]
      have hpick : pickIdx [((0 : ℝ) : EReal)] 0 0 0 = some 0 := by
        simp [pickIdx]
      rw [hpick]
      simp only [List.getD_cons_zero]
      rw [ih (n + 1) (cents ++ [c]) (by simp) ?_]
      · rw [List.append_assoc]
        congr 1
        have hlen : (cents ++ [c]).length = cents.length + 1 := by simp
        rw [hlen]
        have h1 : min (fuel + 1) (k.toNat - cents.length) =
            min fuel (k.toNat - (cents.length + 1)) + 1 := by omega
        rw [h1, List.replicate_succ]
        rfl
      · intro x hx
        rcases List.mem_append.mp hx with hx | hx
        · exact hall x hx
        · simpa using hx
    · rw [icLoop_stop _ _ _ _ _ _ hk]
      have : k.toNat - cents.length = 0 := by omega
      simp [this]

theorem initializeCentroids_single_exact (c : WColor) (k : ℤ) (rand : ℕ → ℝ)
    (hrand : 0 ≤ rand 0 ∧ rand 0 < 1) :
    initializeCentroids [c] k rand =
      [c] ++ List.replicate (min k.toNat (k.toNat - 1)) c := by
  unfold initializeCentroids
  have hfloor : (⌊rand 0 * (([c] : List WColor).length : ℝ)⌋).toNat = 0 := by
    have hlen1 : (([c] : List WColor).length : ℝ) = 1 := by norm_num
    have : ⌊rand 0 * (([c] : List WColor).length : ℝ)⌋ = 0 := by
      rw [hlen1, mul_one, Int.floor_eq_zero_iff]
      exact ⟨hrand.1, hrand.2⟩
    rw [this]
    rfl
  rw [hfloor]
  simp only [List.getD_cons_zero]
  exact icLoop_single_exact c k rand k.toNat 1 [c] (by simp) (by simp)

theorem fccAux_zero_fix (labC : List ℝ) (mr : ℝ) :
    ∀ (cts : List WColor) (idx : ℕ) (ci : ℤ),
      (∀ ct ∈ cts, ct.lab = labC) →
      fccAux labC mr cts idx (ci, ((0 : ℝ) : EReal)) = (ci, ((0 : ℝ) : EReal)) := by
  intro cts
  induction cts with
  | nil => intro idx ci _; rfl
  | cons ct cts ih =>
    intro idx ci hlab
    simp only [fccAux]
    rw [hlab ct (by simp), labDistance3_self]
    rw [if_neg (by simp)]
    exact ih (idx + 1) ci fun x hx => hlab x (by simp [hx])

theorem assignIdx_all_same (c : WColor) (cents : List WColor) (mr : ℝ)
    (hmr : 0 < mr) (hne : cents ≠ []) (hlab : ∀ ct ∈ cents, ct.lab = c.lab) :
    assignIdx c cents mr = 0 := by
  rcases cents with _ | ⟨ct, rest⟩
  · exact absurd rfl hne
  · have hfcc : findClosestConstrained c.lab (ct :: rest) mr = (0, ((0 : ℝ) : EReal)) := by
      unfold findClosestConstrained
      simp only [fccAux]
      rw [hlab ct (by simp), labDistance3_self]
      rw [if_pos ⟨by exact_mod_cast hmr, by simp⟩]
      exact fccAux_zero_fix c.lab mr rest 1 0 fun x hx => hlab x (by simp [hx])
    unfold assignIdx
    rw [hfcc]
    norm_num

theorem filter_replicate_nil (m : ℕ) :
    (List.replicate m ([] : List WColor)).filter (fun cl => cl.length != 0) = [] := by
  induction m with
  | zero => rfl
  | succ m ih => simp [List.replicate_succ, ih]

theorem assignAll_single (c : WColor) (cents : List WColor) (mr : ℝ)
    (hmr : 0 < mr) (hne : cents ≠ []) (hlab : ∀ ct ∈ cents, ct.lab = c.lab) :
    assignAll [c] cents mr = [c] :: List.replicate (cents.length - 1) [] := by
  unfold assignAll
  rw [List.foldl_cons, List.foldl_nil, assignIdx_all_same c cents mr hmr hne hlab]
  rcases cents with _ | ⟨ct, rest⟩
  · exact absurd rfl hne
  · simp only [List.length_cons, List.replicate_succ, pushAt, Nat.add_sub_cancel]
    rfl

theorem kmeansUpdateStep_single (c : WColor) (cents : List WColor) (mr : ℝ)
    (hmr : 0 < mr) (hne : cents ≠ []) (hlab : ∀ ct ∈ cents, ct.lab = c.lab) :
    kmeansUpdateStep [c] cents mr = [updateCentroid [c]] := by
  unfold kmeansUpdateStep
  rw [assignAll_single c cents mr hmr hne hlab]
  rw [List.filter_cons]
  rw [if_pos (by simp)]
  rw [filter_replicate_nil]
  rfl

theorem updateCentroid_single (c : WColor) (x y z : ℝ) (hlab : c.lab = [x, y, z])
    (hN : c.count ≠ 0) :
    updateCentroid [c] = ⟨c.lab, c.count, getAverageRgb [c]⟩ := by
  unfold updateCentroid
  simp only [List.map_cons, List.map_nil, List.sum_cons, List.sum_nil, add_zero]
  rw [hlab]
  simp only [List.getD_cons_zero, List.getD_cons_succ]
  congr 1
  field_simp

theorem isConverged_same_lab (a b : WColor) (h : a.lab = b.lab) :
    isConverged [a] [b] 1.0 := by
  refine ⟨rfl, ?_⟩
  intro i hi
  have hi0 : i = 0 := by simpa using hi
  subst hi0
  simp only [List.getD_cons_zero]
  rw [h, labDistance3_self]
  norm_num

theorem not_isConverged_of_length (old new : List WColor) (h : old.length ≠ new.length) :
    ¬ isConverged old new 1.0 := fun hc => h hc.1

theorem kmeansLoop_single (c : WColor) (mr : ℝ) (hmr : 0 < mr) (hN : c.count ≠ 0)
    (hshape : ∃ x y z : ℝ, c.lab = [x, y, z]) :
    ∀ (fuel L : ℕ), 2 ≤ fuel → 1 ≤ L →
      ∃ r : WColor, kmeansLoop [c] mr fuel (List.replicate L c) = [r] ∧
        r.count = c.count ∧ r.lab = c.lab := by
  obtain ⟨x, y, z, hxyz⟩ := hshape
  have hupd : updateCentroid [c] = ⟨c.lab, c.count, getAverageRgb [c]⟩ :=
    updateCentroid_single c x y z hxyz hN
  intro fuel L hfuel hL
  have hrepl_ne : List.replicate L c ≠ [] := by
    intro h
    rw [List.replicate_eq_nil_iff] at h
    omega
  have hrepl_lab : ∀ ct ∈ List.replicate L c, ct.lab = c.lab := by
    intro ct hct
    rw [List.eq_of_mem_replicate hct]
  have hstep1 : kmeansUpdateStep [c] (List.replicate L c) mr = [updateCentroid [c]] :=
    kmeansUpdateStep_single c _ mr hmr hrepl_ne hrepl_lab
  rcases fuel with _ | _ | fuel
  · omega
  · omega
  · rcases Nat.lt_or_ge L 2 with hL2 | hL2
    · have hL1 : L = 1 := by omega
      subst hL1
      rw [kmeansLoop_succ, hstep1]
      rw [if_pos (by
        show isConverged (List.replicate 1 c) [updateCentroid [c]] 1.0
        simp only [List.replicate_one]
        exact isConverged_same_lab c (updateCentroid [c]) (by rw [hupd]))]
      exact ⟨c, by simp [List.replicate_one], rfl, rfl⟩
    · rw [kmeansLoop_succ, hstep1]
      rw [if_neg (not_isConverged_of_length _ _ (by
        simp only [List.length_replicate, List.length_cons, List.length_nil]
        omega))]
      rw [kmeansLoop_succ]
      have hstep2 : kmeansUpdateStep [c] [updateCentroid [c]] mr = [updateCentroid [c]] :=
        kmeansUpdateStep_single c _ mr hmr (by simp) (by
          intro ct hct
          rcases List.mem_cons.mp hct with rfl | hct
          · rw [hupd]
          · exact absurd hct (by simp))
      rw [hstep2]
      rw [if_pos (isConverged_same_lab _ _ rfl)]
      exact ⟨updateCentroid [c], rfl, by rw [hupd], by rw [hupd]⟩

theorem merge_single (x : WColor) (mr : ℝ) (mc : ℤ) :
    mergeCloseClusters [x] mr mc = [x] := rfl

theorem findLargest_single (p : PaletteColor) (τ : ℝ) (hcount : 0 < p.count) :
    findLargestSimilarRegionIdx [p] τ = some [0] := by
  unfold findLargestSimilarRegionIdx
  rw [if_neg (by simp : ¬([p] = ([] : List PaletteColor)))]
  have hgroups : flsrGroups [p] τ (([p] : List PaletteColor).length + 1) 0 ∅ [] = [[0]] := rfl
  dsimp only
  rw [hgroups]
  simp only [List.foldl_cons, List.foldl_nil, List.map_cons, List.map_nil, List.sum_cons,
    List.sum_nil, add_zero, List.getD_cons_zero]
  rw [if_pos hcount]

theorem detectBackground_single (p : PaletteColor) (τ t : ℝ) (hcount : 0 < p.count) :
    detectBackground [p] τ t = [{ p with isBackground := true }] := by
  unfold detectBackground
  rw [findLargest_single p τ hcount]
  have h1 : List.range 1 = [0] := rfl
  simp [h1]

theorem identifyFeatures_single (p : PaletteColor) (τ t : ℝ) :
    identifyFeatures [p] τ t = [{ p with isFeature := true }] := by
  unfold identifyFeatures
  have h1 : List.range 1 = [0] := rfl
  simp [h1]

theorem sortStable_single (ok : PaletteColor → PaletteColor → Prop) (x : PaletteColor) :
    sortStable ok [x] = [x] := rfl

/-- C6 (amended): a uniform single-color input (one weighted raw entry with
positive count) yields exactly one palette entry; its `count` equals the full
input weight (so its share of the total weight is 1.0), it is flagged as
background, and — the palette being a singleton — it is flagged as a feature.
The record's fields are `rgb`, `count`, `lab`, `isBackground`, `isFeature`
and `hex`; the code has no `percentage` and no `isHidden` field (see
`claim_C6_uniform_palette_counterexample` for the claim as frozen). -/
theorem claim_C6_uniform_palette (e : RawEntry)
    (featureThreshold totalPixels mergeIntensity backgroundThreshold : ℝ)
    (maxColors minColors : ℤ) (rand : ℕ → ℝ)
    (hcnt : 0 < e.count) (hrand : 0 ≤ rand 0 ∧ rand 0 < 1) :
    ∃ pc : PaletteColor,
      analyzePalette [e] featureThreshold totalPixels mergeIntensity backgroundThreshold
          maxColors minColors rand = [pc] ∧
        pc.count = e.count ∧ pc.isBackground = true ∧ pc.isFeature = true := by
  have hmr : 0 < (10 : ℝ) ^ mergeIntensity * 0.1 := by
    have := Real.rpow_pos_of_pos (by norm_num : (0 : ℝ) < 10) mergeIntensity
    nlinarith
  have hinit := initializeCentroids_single_exact (toWColor e) maxColors rand hrand
  have hrepl : ([toWColor e] : List WColor) ++
      List.replicate (min maxColors.toNat (maxColors.toNat - 1)) (toWColor e) =
      List.replicate (min maxColors.toNat (maxColors.toNat - 1) + 1) (toWColor e) := by
    rw [List.replicate_succ]
    rfl
  obtain ⟨r, hloop, hrc, hrl⟩ := kmeansLoop_single (toWColor e)
    ((10 : ℝ) ^ mergeIntensity * 0.1) hmr (by
      show e.count ≠ 0
      exact ne_of_gt hcnt)
    ⟨_, _, _, rfl⟩ 20 (min maxColors.toNat (maxColors.toNat - 1) + 1)
    (by norm_num) (by omega)
  have hne : ([e] : List RawEntry) ≠ [] := by simp
  refine ⟨{ mkPaletteColor r.rgb r.count with isBackground := true, isFeature := true },
    ?_, by simpa [mkPaletteColor] using hrc, rfl, rfl⟩
  simp only [analyzePalette, constrainedKmeans, if_neg hne, List.map_cons, List.map_nil]
  rw [hinit, hrepl, hloop, merge_single]
  simp only [List.map_cons, List.map_nil]
  rw [detectBackground_single _ _ _ (by
    show (0 : ℝ) < (mkPaletteColor r.rgb r.count).count
    rw [show (mkPaletteColor r.rgb r.count).count = r.count from rfl, hrc]
    exact hcnt)]
  rw [identifyFeatures_single, sortStable_single]

/-- Witness for C6 at the concrete uniform entry (5,5,5) with weight 4 and
the constant-zero random stream. -/
theorem claim_C6_uniform_palette_witness :
    (0 : ℝ) < (RawEntry.mk 5 5 5 4).count ∧
      (0 ≤ (fun _ : ℕ => (0 : ℝ)) 0 ∧ (fun _ : ℕ => (0 : ℝ)) 0 < 1) ∧
      ∃ pc : PaletteColor,
        analyzePalette [RawEntry.mk 5 5 5 4] 10 4 1 10 3 1 (fun _ => 0) = [pc] ∧
          pc.count = (RawEntry.mk 5 5 5 4).count ∧ pc.isBackground = true ∧
          pc.isFeature = true :=
  ⟨by norm_num, ⟨by norm_num, by norm_num⟩,
    claim_C6_uniform_palette (RawEntry.mk 5 5 5 4) 10 4 1 10 3 1 (fun _ => 0)
      (by norm_num) ⟨by norm_num, by norm_num⟩⟩

/-- C9 (amended): for a fixed random stream the pipeline is a pure function
of its input, and on single-entry inputs the output does not depend on the
stream at all (the k-means++ seeding is forced).  On inputs with two or more
raw entries, reproducibility across runs fails because `initializeCentroids`
draws unseeded `Math.random()` values — see
`claim_C9_determinism_counterexample`. -/
theorem claim_C9_single_entry_determinism (e : RawEntry)
    (featureThreshold totalPixels mergeIntensity backgroundThreshold : ℝ)
    (maxColors minColors : ℤ) (s1 s2 : ℕ → ℝ)
    (h1 : 0 ≤ s1 0 ∧ s1 0 < 1) (h2 : 0 ≤ s2 0 ∧ s2 0 < 1) :
    analyzePalette [e] featureThreshold totalPixels mergeIntensity backgroundThreshold
        maxColors minColors s1 =
      analyzePalette [e] featureThreshold totalPixels mergeIntensity backgroundThreshold
        maxColors minColors s2 := by
  have hne : ([e] : List RawEntry) ≠ [] := by simp
  have hinit : initializeCentroids [toWColor e] maxColors s1 =
      initializeCentroids [toWColor e] maxColors s2 := by
    rw [initializeCentroids_single_exact _ _ _ h1, initializeCentroids_single_exact _ _ _ h2]
  simp only [analyzePalette, constrainedKmeans, if_neg hne, List.map_cons, List.map_nil]
  rw [hinit]

/-- Witness for C9 (amended) at a concrete entry and two distinct streams. -/
theorem claim_C9_single_entry_determinism_witness :
    ((0 : ℝ) ≤ (fun _ : ℕ => (0 : ℝ)) 0 ∧ (fun _ : ℕ => (0 : ℝ)) 0 < 1) ∧
      ((0 : ℝ) ≤ (fun _ : ℕ => (1 / 2 : ℝ)) 0 ∧ (fun _ : ℕ => (1 / 2 : ℝ)) 0 < 1) ∧
      analyzePalette [RawEntry.mk 7 7 7 3] 1 9 1 2 4 1 (fun _ => 0) =
        analyzePalette [RawEntry.mk 7 7 7 3] 1 9 1 2 4 1 (fun _ => 1 / 2) :=
  ⟨⟨by norm_num, by norm_num⟩, ⟨by norm_num, by norm_num⟩,
    claim_C9_single_entry_determinism (RawEntry.mk 7 7 7 3) 1 9 1 2 4 1
      (fun _ => 0) (fun _ => 1 / 2) ⟨by norm_num, by norm_num⟩ ⟨by norm_num, by norm_num⟩⟩

theorem labDistance3_gray_axis (d : ℝ) (hd : 0 ≤ d) :
    labDistance3 [0, 0, 0] [d, 0, 0] = d := by
  simp only [labDistance3, List.getD_cons_zero, List.getD_cons_succ]
  rw [show ((0 : ℝ) - d) * ((0 : ℝ) - d) + ((0 : ℝ) - 0) * ((0 : ℝ) - 0) +
      ((0 : ℝ) - 0) * ((0 : ℝ) - 0) = d ^ 2 by ring]
  exact Real.sqrt_sq hd

/-- C5: the radius-constrained assignment's fallback does NOT assign the
sample to the globally nearest center.  The `reduce` in the source compares
every distance against the captured `minDist`, which is still `Infinity` on
the fallback path and is never updated, so the comparison succeeds on every
index and the LAST center wins.  Here no center is within the radius 1 of
the sample, center 0 is strictly nearer than center 1 (Delta-E 10 vs 20),
and the sample is assigned to center 1. -/
theorem claim_C5_fallback_assigns_last_not_nearest :
    assignIdx (WColor.mk [0, 0, 0] 1 ⟨0, 0, 0⟩)
        [WColor.mk [10, 0, 0] 1 ⟨0, 0, 0⟩, WColor.mk [20, 0, 0] 1 ⟨0, 0, 0⟩] 1 = 1 ∧
      labDistance3 [0, 0, 0] [10, 0, 0] < labDistance3 [0, 0, 0] [20, 0, 0] ∧
      ¬ (labDistance3 [0, 0, 0] [10, 0, 0] < 1) ∧
      ¬ (labDistance3 [0, 0, 0] [20, 0, 0] < 1) := by
  have h10 : labDistance3 [(0 : ℝ), 0, 0] [10, 0, 0] = 10 :=
    labDistance3_gray_axis 10 (by norm_num)
  have h20 : labDistance3 [(0 : ℝ), 0, 0] [20, 0, 0] = 20 :=
    labDistance3_gray_axis 20 (by norm_num)
  refine ⟨?_, by rw [h10, h20]; norm_num, by rw [h10]; norm_num, by rw [h20]; norm_num⟩
  dsimp only [assignIdx, findClosestConstrained, fccAux, fallbackClosest, fbAux]
  rw [h10, h20]
  norm_num [EReal.coe_lt_top,
    show ¬ (((10 : ℝ) : EReal) < (1 : EReal)) from by
      rw [← EReal.coe_one, EReal.coe_lt_coe_iff]; norm_num,
    show ¬ (((20 : ℝ) : EReal) < (1 : EReal)) from by
      rw [← EReal.coe_one, EReal.coe_lt_coe_iff]; norm_num]

theorem updateCentroid_pair (a b : WColor) (x y z : ℝ) (ha : a.lab = [x, y, z])
    (hb : b.lab = a.lab) (hsum : a.count + b.count ≠ 0) :
    (updateCentroid [a, b]).lab = a.lab ∧
      (updateCentroid [a, b]).count = a.count + b.count := by
  constructor
  · simp only [updateCentroid, List.map_cons, List.map_nil, List.sum_cons, List.sum_nil,
      add_zero, hb, ha, List.getD_cons_zero, List.getD_cons_succ]
    rw [show (x * a.count + x * b.count) / (a.count + b.count) = x by field_simp; ring,
      show (y * a.count + y * b.count) / (a.count + b.count) = y by field_simp; ring,
      show (z * a.count + z * b.count) / (a.count + b.count) = z by field_simp; ring]
  · simp [updateCentroid]

/-- Shared evaluation: `analyzePalette` on a two-entry raw palette whose
entries share one RGB color, with `maxColors = 1`.  The k-means++ pick is the
entry at `idx` (determined by the first random draw); the convergence test
fires on iteration 0 (the sole updated centroid's Lab equals the seeds'
common Lab), so the loop `break`s with the raw seed as the final cluster and
the output palette carries only that seed's count. -/
theorem analyzePalette_pair_seed (rv gv bv c1 c2 ft tp mI bt : ℝ) (minC : ℤ)
    (rand : ℕ → ℝ) (idx : ℕ) (hidx : idx < 2)
    (hpick : (⌊rand 0 * (2 : ℝ)⌋).toNat = idx)
    (hc1 : 0 < c1) (hc2 : 0 < c2) :
    (analyzePalette [RawEntry.mk rv gv bv c1, RawEntry.mk rv gv bv c2] ft tp mI bt 1 minC
        rand).map (·.count) = [if idx = 0 then c1 else c2] := by
  have hmr : 0 < (10 : ℝ) ^ mI * 0.1 := by
    have := Real.rpow_pos_of_pos (by norm_num : (0 : ℝ) < 10) mI
    nlinarith
  have hcases : idx = 0 ∨ idx = 1 := by omega
  set A := toWColor (RawEntry.mk rv gv bv c1) with hA
  set B := toWColor (RawEntry.mk rv gv bv c2) with hB
  have hABlab : B.lab = A.lab := rfl
  have hAcount : A.count = c1 := rfl
  have hBcount : B.count = c2 := rfl
  set seed := ([A, B] : List WColor).getD idx default with hseeddef
  have hseedlab : seed.lab = A.lab := by
    rcases hcases with rfl | rfl
    · rfl
    · rfl
  have hseedcount : 0 < seed.count := by
    rcases hcases with rfl | rfl
    · simpa [hseeddef, hAcount] using hc1
    · simpa [hseeddef, hBcount] using hc2
  have hseeds : initializeCentroids [A, B] 1 rand = [seed] := by
    unfold initializeCentroids
    have hlen : (([A, B] : List WColor).length : ℝ) = 2 := by norm_num
    rw [hlen, hpick]
    exact icLoop_stop _ _ _ _ _ _ (by norm_num)
  have hasgA : assignIdx A [seed] ((10 : ℝ) ^ mI * 0.1) = 0 :=
    assignIdx_all_same A [seed] _ hmr (by simp) (by
      intro ct hct
      rcases List.mem_cons.mp hct with rfl | hct
      · exact hseedlab
      · exact absurd hct (by simp))
  have hasgB : assignIdx B [seed] ((10 : ℝ) ^ mI * 0.1) = 0 :=
    assignIdx_all_same B [seed] _ hmr (by simp) (by
      intro ct hct
      rcases List.mem_cons.mp hct with rfl | hct
      · rw [hseedlab, hABlab]
      · exact absurd hct (by simp))
  have hassign : assignAll [A, B] [seed] ((10 : ℝ) ^ mI * 0.1) = [[A, B]] := by
    unfold assignAll
    rw [List.foldl_cons, List.foldl_cons, List.foldl_nil, hasgA]
    rw [show pushAt (List.replicate ([seed] : List WColor).length []) 0 A = [[A]] from rfl]
    rw [hasgB]
    rfl
  have hstep : kmeansUpdateStep [A, B] [seed] ((10 : ℝ) ^ mI * 0.1) =
      [updateCentroid [A, B]] := by
    unfold kmeansUpdateStep
    rw [hassign]
    rfl
  obtain ⟨xL, yL, zL, hxyz⟩ := rgbToLab_shape rv gv bv
  obtain ⟨hclab, hccount⟩ := updateCentroid_pair A B xL yL zL hxyz hABlab (by
    show c1 + c2 ≠ 0
    positivity)
  have hconv : isConverged [seed] [updateCentroid [A, B]] 1.0 := by
    refine ⟨rfl, ?_⟩
    intro i hi
    have hi0 : i = 0 := by simpa using hi
    subst hi0
    simp only [List.getD_cons_zero]
    rw [hseedlab, hclab, labDistance3_self]
    norm_num
  have hloop : kmeansLoop [A, B] ((10 : ℝ) ^ mI * 0.1) 20 [seed] = [seed] := by
    rw [show (20 : ℕ) = 19 + 1 from rfl, kmeansLoop_succ, hstep, if_pos hconv]
  have hne : ([RawEntry.mk rv gv bv c1, RawEntry.mk rv gv bv c2] : List RawEntry) ≠ [] := by
    simp
  simp only [analyzePalette, constrainedKmeans, if_neg hne, List.map_cons, List.map_nil]
  rw [hseeds, hloop, merge_single]
  simp only [List.map_cons, List.map_nil]
  rw [detectBackground_single _ _ _ (by
    show (0 : ℝ) < (mkPaletteColor seed.rgb seed.count).count
    exact hseedcount)]
  rw [identifyFeatures_single, sortStable_single]
  simp only [List.map_cons, List.map_nil]
  congr 1
  rcases hcases with rfl | rfl
  · simp [hseeddef, hAcount, mkPaletteColor]
  · simp [hseeddef, hBcount, mkPaletteColor]

/-- C1 counterexample: on the raw palette {black × 10, black × 20} with
mergeIntensity 1, maxColors 1, minColors 1 and first random draw 0, k-means
converges at iteration 0 and `break`s before `centroids = newCentroids`, so
the returned cluster is the raw seed (count 10) — the output palette's total
count is 10, not the input total 30. -/
theorem claim_C1_conservation_counterexample :
    ((analyzePalette [RawEntry.mk 0 0 0 10, RawEntry.mk 0 0 0 20] 1 30 1 1 1 1
        (fun _ => 0)).map (·.count)).sum = 10 ∧
      (([RawEntry.mk 0 0 0 10, RawEntry.mk 0 0 0 20] : List RawEntry).map
        (·.count)).sum = 30 ∧
      (10 : ℝ) ≠ 30 := by
  refine ⟨?_, by simp; norm_num, by norm_num⟩
  rw [analyzePalette_pair_seed 0 0 0 10 20 1 30 1 1 1 (fun _ => 0) 0 (by norm_num)
    (by norm_num) (by norm_num) (by norm_num)]
  norm_num

/-- C9 counterexample: `initializeCentroids` consumes `Math.random()`; with
the same two-entry raw palette and parameters, the run whose first draw is 0
seeds at entry 0 (count 10) and the run whose first draw is 1/2 seeds at
entry 1 (count 20).  Both converge at iteration 0 keeping the raw seed, so
the two runs return different palettes: the pipeline is not deterministic
across runs. -/
theorem claim_C9_determinism_counterexample :
    (analyzePalette [RawEntry.mk 0 0 0 10, RawEntry.mk 0 0 0 20] 1 30 1 1 1 1
        (fun _ => 0)).map (·.count) = [10] ∧
      (analyzePalette [RawEntry.mk 0 0 0 10, RawEntry.mk 0 0 0 20] 1 30 1 1 1 1
        (fun _ => 1 / 2)).map (·.count) = [20] ∧
      analyzePalette [RawEntry.mk 0 0 0 10, RawEntry.mk 0 0 0 20] 1 30 1 1 1 1
          (fun _ => 0) ≠
        analyzePalette [RawEntry.mk 0 0 0 10, RawEntry.mk 0 0 0 20] 1 30 1 1 1 1
          (fun _ => 1 / 2) := by
  have h0 : (analyzePalette [RawEntry.mk 0 0 0 10, RawEntry.mk 0 0 0 20] 1 30 1 1 1 1
      (fun _ => 0)).map (·.count) = [10] := by
    rw [analyzePalette_pair_seed 0 0 0 10 20 1 30 1 1 1 (fun _ => 0) 0 (by norm_num)
      (by norm_num) (by norm_num) (by norm_num)]
    norm_num
  have hhalf : (analyzePalette [RawEntry.mk 0 0 0 10, RawEntry.mk 0 0 0 20] 1 30 1 1 1 1
      (fun _ => 1 / 2)).map (·.count) = [20] := by
    rw [analyzePalette_pair_seed 0 0 0 10 20 1 30 1 1 1 (fun _ => 1 / 2) 1 (by norm_num)
      (by norm_num) (by norm_num) (by norm_num)]
    norm_num
  refine ⟨h0, hhalf, ?_⟩
  intro h
  have := congrArg (List.map (·.count)) h
  rw [h0, hhalf] at this
  simp at this

theorem jsRoundR_zero : jsRoundR 0 = 0 := by
  unfold jsRoundR
  rw [show (0 : ℝ) + 1 / 2 = 1 / 2 by norm_num,
    Int.floor_eq_zero_iff.mpr (by constructor <;> norm_num)]
  norm_num

theorem mkBox_black4 :
    mkBox [MCColor.mk 0 0 0 [0, 0, 0], MCColor.mk 0 0 0 [0, 0, 0],
        MCColor.mk 0 0 0 [0, 0, 0], MCColor.mk 0 0 0 [0, 0, 0]] =
      ⟨[MCColor.mk 0 0 0 [0, 0, 0], MCColor.mk 0 0 0 [0, 0, 0],
          MCColor.mk 0 0 0 [0, 0, 0], MCColor.mk 0 0 0 [0, 0, 0]],
        0, 0, 0, 0, 0, 0, 0, 0, 0, 0, 0, 0⟩ := by
  simp only [mkBox, List.foldl_cons, List.foldl_nil, boxUpd]
  norm_num

theorem getWidestChannel_black4 :
    getWidestChannel
        (⟨[MCColor.mk 0 0 0 [0, 0, 0], MCColor.mk 0 0 0 [0, 0, 0],
            MCColor.mk 0 0 0 [0, 0, 0], MCColor.mk 0 0 0 [0, 0, 0]],
          0, 0, 0, 0, 0, 0, 0, 0, 0, 0, 0, 0⟩ : Box) = Channel.r := by
  simp [getWidestChannel, widerUpd, chRange]

theorem sortColorsByChannel_black4 :
    sortColorsByChannel Channel.r
        [MCColor.mk 0 0 0 [0, 0, 0], MCColor.mk 0 0 0 [0, 0, 0],
          MCColor.mk 0 0 0 [0, 0, 0], MCColor.mk 0 0 0 [0, 0, 0]] =
      [MCColor.mk 0 0 0 [0, 0, 0], MCColor.mk 0 0 0 [0, 0, 0],
        MCColor.mk 0 0 0 [0, 0, 0], MCColor.mk 0 0 0 [0, 0, 0]] := by
  simp [sortColorsByChannel, sortStable, insStable, chVal]

theorem mcSplit_black4 :
    mcSplit (mkBox [MCColor.mk 0 0 0 [0, 0, 0], MCColor.mk 0 0 0 [0, 0, 0],
        MCColor.mk 0 0 0 [0, 0, 0], MCColor.mk 0 0 0 [0, 0, 0]]) =
      (mkBox [MCColor.mk 0 0 0 [0, 0, 0], MCColor.mk 0 0 0 [0, 0, 0]],
        mkBox [MCColor.mk 0 0 0 [0, 0, 0], MCColor.mk 0 0 0 [0, 0, 0]]) := by
  unfold mcSplit
  rw [mkBox_black4, getWidestChannel_black4]
  dsimp only
  rw [sortColorsByChannel_black4]
  rfl

theorem mcLoop_black4 :
    mcLoop 2 2 [mkBox [MCColor.mk 0 0 0 [0, 0, 0], MCColor.mk 0 0 0 [0, 0, 0],
        MCColor.mk 0 0 0 [0, 0, 0], MCColor.mk 0 0 0 [0, 0, 0]]] =
      [mkBox [MCColor.mk 0 0 0 [0, 0, 0], MCColor.mk 0 0 0 [0, 0, 0]],
        mkBox [MCColor.mk 0 0 0 [0, 0, 0], MCColor.mk 0 0 0 [0, 0, 0]]] := by
  rw [show (2 : ℕ) = 1 + 1 from rfl]
  rw [mcLoop]
  rw [if_pos (by norm_num)]
  rw [show mcChoose [mkBox [MCColor.mk 0 0 0 [0, 0, 0], MCColor.mk 0 0 0 [0, 0, 0],
      MCColor.mk 0 0 0 [0, 0, 0], MCColor.mk 0 0 0 [0, 0, 0]]] =
    some (mkBox [MCColor.mk 0 0 0 [0, 0, 0], MCColor.mk 0 0 0 [0, 0, 0],
      MCColor.mk 0 0 0 [0, 0, 0], MCColor.mk 0 0 0 [0, 0, 0]], []) from rfl]
  dsimp only
  rw [mkBox_colors]
  rw [if_neg (by norm_num)]
  rw [mcSplit_black4]
  dsimp only
  rw [if_neg (by simp [mkBox_colors])]
  rw [mcLoop]
  rw [if_neg (by rw [List.length_cons, List.length_cons, List.length_nil]; norm_num)]

theorem getAverageColor_black2 :
    getAverageColor (mkBox [MCColor.mk 0 0 0 [0, 0, 0], MCColor.mk 0 0 0 [0, 0, 0]]) =
      some ⟨0, 0, 0⟩ := by
  unfold getAverageColor
  rw [mkBox_colors]
  rw [if_neg (by norm_num)]
  have h : ((List.map (fun c => c.r)
      [MCColor.mk (0 : ℝ) 0 0 [0, 0, 0], MCColor.mk 0 0 0 [0, 0, 0]]).sum) = 0 := by
    simp
  congr 1
  refine congrArg₂ (Rgb.mk · · _) ?_ ?_ |>.trans (congrArg _ ?_) <;>
    · simp only [List.map_cons, List.map_nil, List.sum_cons, List.sum_nil]
      norm_num [jsRoundR_zero]

theorem extractPaletteMedianCut_black4 :
    extractPaletteMedianCut (List.replicate 4 (Pixel.mk 0 0 0 255)) 2 =
      [RawEntry.mk 0 0 0 2, RawEntry.mk 0 0 0 2] := by
  unfold extractPaletteMedianCut
  rw [if_neg (by simp)]
  have hAll : (List.replicate 4 (Pixel.mk 0 0 0 255)).map
      (fun p => MCColor.mk p.r p.g p.b (rgbToLab p.r p.g p.b)) =
      [MCColor.mk 0 0 0 [0, 0, 0], MCColor.mk 0 0 0 [0, 0, 0],
        MCColor.mk 0 0 0 [0, 0, 0], MCColor.mk 0 0 0 [0, 0, 0]] := by
    simp [List.map_replicate, rgbToLab_zero]
  dsimp only
  rw [hAll]
  rw [show ((2 : ℤ)).toNat = 2 from rfl]
  rw [mcLoop_black4]
  simp only [List.filterMap_cons, List.filterMap_nil, getAverageColor_black2,
    Option.map_some', mkBox_colors]
  norm_num

/-- C6 counterexample: a uniform black 2x2 image quantized to 2 dominant
colors yields the raw palette {black x 2, black x 2} (the median cut happily
splits the uniform box), and `analyzePalette` on that input with
`maxColors = 1` outputs exactly one entry — but its count is 2 out of 4
total pixels, a share of 1/2, not 1.0 (and the record has no `percentage`
field at all to carry that value). -/
theorem claim_C6_uniform_palette_counterexample :
    extractPaletteMedianCut (List.replicate 4 (Pixel.mk 0 0 0 255)) 2 =
        [RawEntry.mk 0 0 0 2, RawEntry.mk 0 0 0 2] ∧
      (analyzePalette [RawEntry.mk 0 0 0 2, RawEntry.mk 0 0 0 2] 10 4 1 10 1 1
          (fun _ => 0)).map (·.count) = [2] ∧
      (2 : ℝ) / 4 ≠ 1 := by
  refine ⟨extractPaletteMedianCut_black4, ?_, by norm_num⟩
  rw [analyzePalette_pair_seed 0 0 0 2 2 10 4 1 10 1 (fun _ => 0) 0 (by norm_num)
    (by norm_num) (by norm_num) (by norm_num)]
  norm_num

/-- With a single centroid every sample lands in cluster 0, whether through
the constrained scan or the fallback. -/
theorem assignIdx_singleton (c ct : WColor) (mr : ℝ) : assignIdx c [ct] mr = 0 := by
  unfold assignIdx findClosestConstrained
  dsimp only [fccAux, fallbackClosest, fbAux]
  by_cases h : (labDistance3 c.lab ct.lab : EReal) < (mr : EReal) ∧
      (labDistance3 c.lab ct.lab : EReal) < (⊤ : EReal)
  · rw [if_pos h]
    norm_num
  · rw [if_neg h]
    rw [if_pos rfl]
    rw [ite_self]

/-- On the raw palette {black x 10, gray-10 x 20} with merge intensity 1 and
1 cluster, the seed is the black entry but the first recomputed centroid is
the count-weighted mix, which sits at Delta-E about 2.2 from the seed — so
the convergence test does NOT fire at iteration 0. -/
theorem c1_nonconv :
    ¬ isConverged
        (initializeCentroids
          (([RawEntry.mk 0 0 0 10, RawEntry.mk 10 10 10 20] : List RawEntry).map toWColor) 1
          (fun _ => 0))
        (kmeansUpdateStep
          (([RawEntry.mk 0 0 0 10, RawEntry.mk 10 10 10 20] : List RawEntry).map toWColor)
          (initializeCentroids
            (([RawEntry.mk 0 0 0 10, RawEntry.mk 10 10 10 20] : List RawEntry).map toWColor) 1
            (fun _ => 0))
          ((10 : ℝ) ^ (1 : ℝ) * 0.1)) 1.0 := by
  set A := toWColor (RawEntry.mk 0 0 0 10) with hA
  set B := toWColor (RawEntry.mk 10 10 10 20) with hB
  have hmap : (([RawEntry.mk 0 0 0 10, RawEntry.mk 10 10 10 20] : List RawEntry).map toWColor) =
      [A, B] := rfl
  have hseeds : initializeCentroids [A, B] 1 (fun _ => 0) = [A] := by
    unfold initializeCentroids
    have hlen : (([A, B] : List WColor).length : ℝ) = 2 := by norm_num
    rw [hlen]
    rw [show (⌊(fun _ : ℕ => (0 : ℝ)) 0 * 2⌋).toNat = 0 by norm_num]
    exact icLoop_stop _ _ _ _ _ _ (by norm_num)
  have hassign : assignAll [A, B] [A] ((10 : ℝ) ^ (1 : ℝ) * 0.1) = [[A, B]] := by
    unfold assignAll
    rw [List.foldl_cons, List.foldl_cons, List.foldl_nil, assignIdx_singleton]
    rw [show pushAt (List.replicate ([A] : List WColor).length []) 0 A = [[A]] from rfl]
    rw [assignIdx_singleton]
    rfl
  have hstep : kmeansUpdateStep [A, B] [A] ((10 : ℝ) ^ (1 : ℝ) * 0.1) =
      [updateCentroid [A, B]] := by
    unfold kmeansUpdateStep
    rw [hassign]
    rfl
  rw [hmap, hseeds, hstep]
  rintro ⟨-, hall⟩
  have h0 := hall 0 (by norm_num)
  have key : ∀ u v w : ℝ, 1 ≤ u ^ 2 →
      Real.sqrt ((0 - u) * (0 - u) + (0 - v) * (0 - v) + (0 - w) * (0 - w)) < 1 → False := by
    intro u v w h1 hlt
    have he : (0 : ℝ) ≤ (0 - u) * (0 - u) + (0 - v) * (0 - v) + (0 - w) * (0 - w) := by
      nlinarith [sq_nonneg u, sq_nonneg v, sq_nonneg w]
    nlinarith [Real.sq_sqrt he,
      Real.sqrt_nonneg ((0 - u) * (0 - u) + (0 - v) * (0 - v) + (0 - w) * (0 - w)),
      sq_nonneg v, sq_nonneg w]
  simp only [List.getD_cons_zero, updateCentroid, List.map_cons, List.map_nil,
    List.sum_cons, List.sum_nil, labDistance3, List.getD_cons_succ] at h0
  rw [hA, hB] at h0
  simp only [toWColor] at h0
  rw [rgbToLab_zero, rgbToLab_linear 10 (by norm_num) (by norm_num)] at h0
  simp only [List.getD_cons_zero, List.getD_cons_succ] at h0
  rw [show (1.0 : ℝ) = 1 by norm_num] at h0
  exact key _ _ _ (by norm_num) h0

theorem claim_C1_conservation_witness :
    (([RawEntry.mk 0 0 0 10, RawEntry.mk 10 10 10 20] : List RawEntry) ≠ [] ∧
        (∀ e ∈ ([RawEntry.mk 0 0 0 10, RawEntry.mk 10 10 10 20] : List RawEntry),
          0 < e.count)) ∧
      ((analyzePalette [RawEntry.mk 0 0 0 10, RawEntry.mk 10 10 10 20] 1 30 1 1 1 1
          (fun _ => 0)).map (·.count)).sum =
        (([RawEntry.mk 0 0 0 10, RawEntry.mk 10 10 10 20] : List RawEntry).map
          (·.count)).sum :=
  ⟨⟨by simp, by
      intro e he
      rcases List.mem_cons.mp he with rfl | he
      · norm_num
      · rcases List.mem_cons.mp he with rfl | he
        · norm_num
        · exact absurd he (by simp)⟩,
    claim_C1_conservation [RawEntry.mk 0 0 0 10, RawEntry.mk 10 10 10 20] 1 30 1 1 1 1
      (fun _ => 0) (by simp)
      (by
        intro e he
        rcases List.mem_cons.mp he with rfl | he
        · norm_num
        · rcases List.mem_cons.mp he with rfl | he
          · norm_num
          · exact absurd he (by simp))
      c1_nonconv⟩

end

section Slic

/-- One neighbor probe of `floodFill`'s BFS: if `(nx, ny)` is in bounds,
unvisited and carries the target label, mark it visited and append it to the
queue.  State is `(visited, queue)`. -/
def ffTryPush (labels : List ℤ) (width height targetLabel nx ny : ℤ)
    (s : List Bool × List (ℤ × ℤ)) : List Bool × List (ℤ × ℤ) :=
  if 0 ≤ nx ∧ nx < width ∧ 0 ≤ ny ∧ ny < height then
    let nIdx := (ny * width + nx).toNat
    if ¬ s.1.getD nIdx false ∧ labels.getD nIdx 0 = targetLabel then
      (s.1.set nIdx true, s.2 ++ [(nx, ny)])
    else s
  else s

/-- The `while (queue.length > 0)` loop of `floodFill`: shift the front cell,
push its index onto the segment, then probe the four neighbors in source
order (up, down, left, right).  Fuel bounds the iteration count; each
iteration consumes one queued cell and cells are queued at most once (they
are marked visited when queued), so `width*height + 1` units always
suffice. -/
def ffLoop (labels : List ℤ) (width height targetLabel : ℤ) :
    ℕ → List (ℤ × ℤ) → List Bool → List ℕ → List ℕ
  | 0, _, _, segment => segment
  | _ + 1, [], _, segment => segment
  | fuel + 1, (x, y) :: rest, visited, segment =>
    let idx := (y * width + x).toNat
    let s := ffTryPush labels width height targetLabel x (y - 1) (visited, rest)
    let s := ffTryPush labels width height targetLabel x (y + 1) s
    let s := ffTryPush labels width height targetLabel (x - 1) y s
    let s := ffTryPush labels width height targetLabel (x + 1) y s
    ffLoop labels width height targetLabel fuel s.2 s.1 (segment ++ [idx])

/-- `floodFill` from `slic.js`: collect the 4-connected component of
`(startX, startY)` within the cells labelled `targetLabel`, as a list of
flat indices, with a fresh local `visited` array. -/
def floodFill (labels : List ℤ) (width height startX startY targetLabel : ℤ) : List ℕ :=
  if startX < 0 ∨ width ≤ startX ∨ startY < 0 ∨ height ≤ startY then []
  else
    let startIdx := (startY * width + startX).toNat
    let visited0 := List.replicate (width * height).toNat false
    if ¬ (labels.getD startIdx 0 = targetLabel) ∨ visited0.getD startIdx false then []
    else
      ffLoop labels width height targetLabel ((width * height).toNat + 1)
        [(startX, startY)] (visited0.set startIdx true) []

/-- The per-cell body of `enforceConnectivity`'s double loop.  State is
`(cleanedLabels, visited, currentLabel)`.  An unvisited cell's component is
flood-filled; a component of size `>= minSegmentSize` is written into
`cleanedLabels` under the running label, a smaller one is only marked
visited — its cells keep the `Int32Array` default label 0 and are never
reassigned to a neighboring segment. -/
def ecCell (labels : List ℤ) (width height : ℤ) (minSegmentSize : ℚ)
    (st : List ℤ × List Bool × ℤ) (x y : ℤ) : List ℤ × List Bool × ℤ :=
  let idx := (y * width + x).toNat
  if st.2.1.getD idx false then st
  else
    let segment := floodFill labels width height x y (labels.getD idx 0)
    if (segment.length : ℚ) ≥ minSegmentSize then
      (segment.foldl (fun cl pos => cl.set pos st.2.2) st.1,
        segment.foldl (fun vs pos => vs.set pos true) st.2.1,
        st.2.2 + 1)
    else
      (st.1, segment.foldl (fun vs pos => vs.set pos true) st.2.1, st.2.2)

/-- `enforceConnectivity` from `slic.js`: scan the grid row-major, keep each
large-enough component under a fresh consecutive label, and only *mark*
small components visited.  `minSegmentSize` is
`(width*height) / (2 * new Set(labels).size)` — embedded as the exact
rational `mkRat (width*height) (2 * labels.dedup.length)`, which equals that
quotient whenever the label list is non-empty.  The function returns
`cleanedLabels` directly; the comment in the source announcing reassignment
of small segments to neighboring labels has no corresponding code. -/
def enforceConnectivity (labels : List ℤ) (width height : ℤ) : List ℤ :=
  let minSegmentSize : ℚ := mkRat (width * height) (2 * labels.dedup.length)
  ((List.range height.toNat).foldl (fun st y =>
      (List.range width.toNat).foldl (fun st x =>
        ecCell labels width height minSegmentSize st (x : ℤ) (y : ℤ)) st)
    (List.replicate (width * height).toNat (0 : ℤ),
      List.replicate (width * height).toNat false, (0 : ℤ))).1

end Slic

/-- C4: small 4-connected components are NOT absorbed into a neighboring
segment.  On the 9x1 label row [0,0,0,0,1,1,1,1,2] there are 3 distinct
labels, so `minSegmentSize = 9/(2*3) = 3/2`; the component {8} has size
1 < 3/2 and its only neighbor is the component relabelled 1, yet the
returned labels are [0,0,0,0,1,1,1,1,0]: the small component is silently
given the `Int32Array` default label 0 — the label of the (non-adjacent)
first kept segment — because the announced reassignment step is absent from
the code. -/
theorem claim_C4_small_segment_not_absorbed :
    enforceConnectivity [0, 0, 0, 0, 1, 1, 1, 1, 2] 9 1 = [0, 0, 0, 0, 1, 1, 1, 1, 0] ∧
      (([0, 0, 0, 0, 1, 1, 1, 1, 2] : List ℤ).dedup.length = 3 ∧
        (mkRat (9 * 1) (2 * 3) : ℚ) = ((9 : ℚ) * 1) / (2 * 3) ∧
        ((9 : ℚ) * 1) / (2 * 3) = 3 / 2 ∧ (1 : ℚ) < 3 / 2) ∧
      (enforceConnectivity [0, 0, 0, 0, 1, 1, 1, 1, 2] 9 1).getD 8 0 = 0 ∧
      (enforceConnectivity [0, 0, 0, 0, 1, 1, 1, 1, 2] 9 1).getD 7 0 = 1 := by
  refine ⟨by decide, ⟨by decide, ?_, by norm_num, by norm_num⟩, by decide, by decide⟩
  rw [Rat.mkRat_eq_div]
  norm_num
